import Mathlib

/-!
Verification development for `pyuploadcare/api.py`, the REST/upload request
layer of the pyuploadcare client.

The Python source is shallowly embedded: strings are `List Char` (one entry
per Python `str` code point), byte strings are `List Nat` (each entry a byte
value), `hashlib.md5`, `hashlib.sha1` and `hmac` are implemented over byte
lists with `Nat` arithmetic taken modulo `2 ^ 32`, `json.dumps` / `json.loads`
follow CPython's `json` module with its default options, and
`urllib.parse.urljoin` / `urlsplit` follow CPython 3.8's `urllib/parse.py`.
The HTTP transport is a parameter: a call receives the transport outcome
(an exception or a response) as an explicit input.
-/

namespace Uploadcare

/-- Python `str` values, one list entry per code point. -/
abbrev Lc := List Char

/-- Python `bytes` values, one list entry per byte. -/
abbrev Bytes := List Nat

/-! ## UTF-8 encoding (`str.encode('utf-8')`) -/

/-- UTF-8 encoding of a single unicode scalar value. -/
def utf8Char (c : Char) : Bytes :=
  let n := c.toNat
  if n < 128 then [n]
  else if n < 2048 then [192 + n / 64, 128 + n % 64]
  else if n < 65536 then [224 + n / 4096, 128 + n / 64 % 64, 128 + n % 64]
  else [240 + n / 262144, 128 + n / 4096 % 64, 128 + n / 64 % 64, 128 + n % 64]

/-- `s.encode('utf-8')` on a Python unicode string. -/
def utf8Encode (s : Lc) : Bytes :=
  s.foldr (fun c acc => utf8Char c ++ acc) []

/-! ## Hex digests -/

/-- One lowercase hexadecimal digit. -/
def hexDigit (n : Nat) : Char :=
  if n < 10 then Char.ofNat (48 + n) else Char.ofNat (87 + n)

/-- Two lowercase hex digits of a byte. -/
def hexByte (b : Nat) : Lc := [hexDigit (b / 16 % 16), hexDigit (b % 16)]

/-- Lowercase hex string of a byte list, as produced by `.hexdigest()`. -/
def bytesToHex (bs : Bytes) : Lc :=
  bs.foldr (fun b acc => hexByte b ++ acc) []

/-! ## 32-bit helpers (Nat arithmetic modulo `2 ^ 32`) -/

/-- The modulus for 32-bit words. -/
def w32 : Nat := 4294967296

/-- Addition modulo `2 ^ 32`. -/
def add32 (a b : Nat) : Nat := (a + b) % w32

/-- Bitwise complement on 32 bits. -/
def not32 (a : Nat) : Nat := Nat.xor (a % w32) 4294967295

/-- Left rotation of a 32-bit word. -/
def rotl32 (n x : Nat) : Nat :=
  ((x % w32) * 2 ^ n + (x % w32) / 2 ^ (32 - n)) % w32

/-- 4 little-endian bytes of a 32-bit word. -/
def bytesLE4 (x : Nat) : Bytes :=
  [x % 256, x / 256 % 256, x / 65536 % 256, x / 16777216 % 256]

/-- 4 big-endian bytes of a 32-bit word. -/
def bytesBE4 (x : Nat) : Bytes :=
  [x / 16777216 % 256, x / 65536 % 256, x / 256 % 256, x % 256]

/-- 8 big-endian bytes of a 64-bit value. -/
def bytesBE8 (x : Nat) : Bytes := bytesBE4 (x / w32) ++ bytesBE4 (x % w32)

/-- 8 little-endian bytes of a 64-bit value. -/
def bytesLE8 (x : Nat) : Bytes := bytesLE4 (x % w32) ++ bytesLE4 (x / w32)

/-- Split a byte list into 64-byte blocks. -/
def blocks64 (l : Bytes) : List Bytes :=
  if h : l = [] then []
  else
    have : (List.drop 64 l).length < l.length := by
      cases l with
      | nil => exact absurd rfl h
      | cons a t => simp [List.length_drop]; omega
    l.take 64 :: blocks64 (l.drop 64)
termination_by l.length

/-- 16 little-endian 32-bit words of a 64-byte block. -/
def wordsLE : Bytes → List Nat
  | a :: b :: c :: d :: rest => (a + 256 * b + 65536 * c + 16777216 * d) :: wordsLE rest
  | _ => []

/-- 16 big-endian 32-bit words of a 64-byte block. -/
def wordsBE : Bytes → List Nat
  | a :: b :: c :: d :: rest => (16777216 * a + 65536 * b + 256 * c + d) :: wordsBE rest
  | _ => []

/-! ## MD5 (`hashlib.md5`) -/

/-- The 64 MD5 sine-derived constants. -/
def md5K : List Nat :=
  [3614090360, 3905402710, 606105819, 3250441966,
   4118548399, 1200080426, 2821735955, 4249261313,
   1770035416, 2336552879, 4294925233, 2304563134,
   1804603682, 4254626195, 2792965006, 1236535329,
   4129170786, 3225465664, 643717713, 3921069994,
   3593408605, 38016083, 3634488961, 3889429448,
   568446438, 3275163606, 4107603335, 1163531501,
   2850285829, 4243563512, 1735328473, 2368359562,
   4294588738, 2272392833, 1839030562, 4259657740,
   2763975236, 1272893353, 4139469664, 3200236656,
   681279174, 3936430074, 3572445317, 76029189,
   3654602809, 3873151461, 530742520, 3299628645,
   4096336452, 1126891415, 2878612391, 4237533241,
   1700485571, 2399980690, 4293915773, 2240044497,
   1873313359, 4264355552, 2734768916, 1309151649,
   4149444226, 3174756917, 718787259, 3951481745]

/-- The 64 MD5 per-round rotation amounts. -/
def md5S : List Nat :=
  [7, 12, 17, 22, 7, 12, 17, 22, 7, 12, 17, 22, 7, 12, 17, 22,
   5, 9, 14, 20, 5, 9, 14, 20, 5, 9, 14, 20, 5, 9, 14, 20,
   4, 11, 16, 23, 4, 11, 16, 23, 4, 11, 16, 23, 4, 11, 16, 23,
   6, 10, 15, 21, 6, 10, 15, 21, 6, 10, 15, 21, 6, 10, 15, 21]

/-- One MD5 round on the state `(a, b, c, d)`. -/
def md5Round (m : List Nat) (st : Nat × Nat × Nat × Nat) (i : Nat) :
    Nat × Nat × Nat × Nat :=
  let (a, b, c, d) := st
  let f :=
    if i < 16 then Nat.lor (Nat.land b c) (Nat.land (not32 b) d)
    else if i < 32 then Nat.lor (Nat.land d b) (Nat.land (not32 d) c)
    else if i < 48 then Nat.xor b (Nat.xor c d)
    else Nat.xor c (Nat.lor b (not32 d))
  let g :=
    if i < 16 then i
    else if i < 32 then (5 * i + 1) % 16
    else if i < 48 then (3 * i + 5) % 16
    else 7 * i % 16
  let tmp := add32 (add32 (add32 f a) (md5K.getD i 0)) (m.getD g 0)
  (d, add32 b (rotl32 (md5S.getD i 0) tmp), b, c)

/-- Process one 64-byte block of MD5. -/
def md5Block (st : Nat × Nat × Nat × Nat) (block : Bytes) : Nat × Nat × Nat × Nat :=
  let m := wordsLE block
  let (a, b, c, d) := st
  let (a', b', c', d') := (List.range 64).foldl (md5Round m) (a, b, c, d)
  (add32 a a', add32 b b', add32 c c', add32 d d')

/-- MD5 padding: `0x80`, zeros to 56 mod 64, then the 64-bit LE bit length. -/
def md5Pad (msg : Bytes) : Bytes :=
  msg ++ [128] ++ List.replicate ((119 - msg.length % 64) % 64) 0
      ++ bytesLE8 (msg.length * 8 % 18446744073709551616)

/-- The 16-byte MD5 digest of a byte list. -/
def md5 (msg : Bytes) : Bytes :=
  let (a, b, c, d) :=
    (blocks64 (md5Pad msg)).foldl md5Block
      (1732584193, 4023233417, 2562383102, 271733878)
  bytesLE4 a ++ bytesLE4 b ++ bytesLE4 c ++ bytesLE4 d

/-- `hashlib.md5(bs).hexdigest()`. -/
def md5Hex (bs : Bytes) : Lc := bytesToHex (md5 bs)

/-! ## SHA-1 (`hashlib.sha1`) -/

/-- Extend 16 message words to 80 for SHA-1. -/
def sha1Extend (w : List Nat) : List Nat :=
  (List.range 64).foldl
    (fun acc _ =>
      let n := acc.length
      acc ++ [rotl32 1 (Nat.xor (acc.getD (n - 3) 0)
        (Nat.xor (acc.getD (n - 8) 0)
          (Nat.xor (acc.getD (n - 14) 0) (acc.getD (n - 16) 0))))])
    w

/-- One SHA-1 round on the state `(a, b, c, d, e)`. -/
def sha1Round (w : List Nat) (st : Nat × Nat × Nat × Nat × Nat) (i : Nat) :
    Nat × Nat × Nat × Nat × Nat :=
  let (a, b, c, d, e) := st
  let f :=
    if i < 20 then Nat.lor (Nat.land b c) (Nat.land (not32 b) d)
    else if i < 40 then Nat.xor b (Nat.xor c d)
    else if i < 60 then Nat.lor (Nat.lor (Nat.land b c) (Nat.land b d)) (Nat.land c d)
    else Nat.xor b (Nat.xor c d)
  let k :=
    if i < 20 then 1518500249
    else if i < 40 then 1859775393
    else if i < 60 then 2400959708
    else 3395469782
  let tmp := add32 (add32 (add32 (add32 (rotl32 5 a) f) e) k) (w.getD i 0)
  (tmp, a, rotl32 30 b, c, d)

/-- Process one 64-byte block of SHA-1. -/
def sha1Block (st : Nat × Nat × Nat × Nat × Nat) (block : Bytes) :
    Nat × Nat × Nat × Nat × Nat :=
  let w := sha1Extend (wordsBE block)
  let (a, b, c, d, e) := st
  let (a', b', c', d', e') := (List.range 80).foldl (sha1Round w) (a, b, c, d, e)
  (add32 a a', add32 b b', add32 c c', add32 d d', add32 e e')

/-- SHA-1 padding: `0x80`, zeros to 56 mod 64, then the 64-bit BE bit length. -/
def sha1Pad (msg : Bytes) : Bytes :=
  msg ++ [128] ++ List.replicate ((119 - msg.length % 64) % 64) 0
      ++ bytesBE8 (msg.length * 8 % 18446744073709551616)

/-- The 20-byte SHA-1 digest of a byte list. -/
def sha1 (msg : Bytes) : Bytes :=
  let (a, b, c, d, e) :=
    (blocks64 (sha1Pad msg)).foldl sha1Block
      (1732584193, 4023233417, 2562383102, 271733878, 3285377520)
  bytesBE4 a ++ bytesBE4 b ++ bytesBE4 c ++ bytesBE4 d ++ bytesBE4 e

/-! ## HMAC-SHA1 (`hmac.new(key, msg, hashlib.sha1)`) -/

/-- The 20-byte HMAC-SHA1 tag of a message under a key. -/
def hmacSha1 (key msg : Bytes) : Bytes :=
  let k0 := if 64 < key.length then sha1 key else key
  let k1 := k0 ++ List.replicate (64 - k0.length) 0
  let ipad := k1.map (Nat.xor · 54)
  let opad := k1.map (Nat.xor · 92)
  sha1 (opad ++ sha1 (ipad ++ msg))

/-- `hmac.new(key, msg, hashlib.sha1).hexdigest()`. -/
def hmacSha1Hex (key msg : Bytes) : Lc := bytesToHex (hmacSha1 key msg)

/-- Decimal digits of a number, fuelled so that it reduces in the
kernel; the fuel in `natToDec` always suffices. -/
def natToDecAux : Nat → Nat → Lc
  | 0, _ => []
  | fuel + 1, n =>
    if n < 10 then [Char.ofNat (48 + n)]
    else natToDecAux fuel (n / 10) ++ [Char.ofNat (48 + n % 10)]

/-- Decimal digits of a number (Python's `str` of a non-negative int). -/
def natToDec (n : Nat) : Lc := natToDecAux (n + 1) n

/-- Python `repr` of an int: decimal digits with a leading `-` when
negative. -/
def intToDec (i : Int) : Lc :=
  if i < 0 then '-' :: natToDec i.natAbs else natToDec i.toNat

/-! ## JSON values

Python JSON structures. Integral numbers are carried as `Int`; non-integral
numeric literals (floats, `NaN`, `Infinity`) are carried verbatim as
`numLit`. Objects are insertion-ordered key/value lists, matching the
iteration order of a Python `dict`. -/

inductive JsonValue where
  | null : JsonValue
  | bool (b : Bool) : JsonValue
  | num (i : Int) : JsonValue
  | numLit (s : Lc) : JsonValue
  | str (s : Lc) : JsonValue
  | arr (l : List JsonValue) : JsonValue
  | obj (l : List (Lc × JsonValue)) : JsonValue

/-! ## `json.dumps` with default options

CPython defaults: `ensure_ascii=True` (every non-ASCII character becomes a
`\uXXXX` escape, astral characters a surrogate pair of escapes), separators
`', '` and `': '`. -/

/-- Four lowercase hex digits of a 16-bit value. -/
def hexDigit4 (n : Nat) : Lc :=
  [hexDigit (n / 4096 % 16), hexDigit (n / 256 % 16), hexDigit (n / 16 % 16),
   hexDigit (n % 16)]

/-- How `json.dumps` (with `ensure_ascii=True`) renders one character. -/
def jsonEscapeChar (c : Char) : Lc :=
  if c = Char.ofNat 34 then ['\\', Char.ofNat 34]
  else if c = '\\' then ['\\', '\\']
  else if c = Char.ofNat 8 then ['\\', 'b']
  else if c = Char.ofNat 12 then ['\\', 'f']
  else if c = '\n' then ['\\', 'n']
  else if c = Char.ofNat 13 then ['\\', 'r']
  else if c = '\t' then ['\\', 't']
  else if 32 ≤ c.toNat ∧ c.toNat ≤ 126 then [c]
  else if c.toNat < 65536 then '\\' :: 'u' :: hexDigit4 c.toNat
  else
    let n := c.toNat - 65536
    '\\' :: 'u' :: hexDigit4 (55296 + n / 1024)
      ++ '\\' :: 'u' :: hexDigit4 (56320 + n % 1024)

/-- A double-quoted, escaped JSON string literal. -/
def jsonQuote (s : Lc) : Lc :=
  Char.ofNat 34 :: s.foldr (fun c acc => jsonEscapeChar c ++ acc) [Char.ofNat 34]

mutual

/-- `json.dumps(v)` with CPython's default options. -/
def dumps : JsonValue → Lc
  | .null => "null".data
  | .bool true => "true".data
  | .bool false => "false".data
  | .num i => intToDec i
  | .numLit s => s
  | .str s => jsonQuote s
  | .arr l => '[' :: dumpsArr l ++ [']']
  | .obj l => Char.ofNat 123 :: dumpsObj l ++ [Char.ofNat 125]

/-- Array elements joined by `', '`. -/
def dumpsArr : List JsonValue → Lc
  | [] => []
  | [x] => dumps x
  | x :: y :: xs => dumps x ++ ',' :: ' ' :: dumpsArr (y :: xs)

/-- Object entries `"key": value` joined by `', '`. -/
def dumpsObj : List (Lc × JsonValue) → Lc
  | [] => []
  | [(k, v)] => jsonQuote k ++ ':' :: ' ' :: dumps v
  | (k, v) :: e :: xs =>
    jsonQuote k ++ ':' :: ' ' :: dumps v ++ ',' :: ' ' :: dumpsObj (e :: xs)

end

/-! ## `json.loads`

A recursive-descent parser matching CPython's `json` module on well-formed
input and producing CPython-style `JSONDecodeError` messages
(`"...: line L column C (char P)"`). A lone surrogate `\uXXXX` escape, which
Python would keep as an unpaired surrogate code unit, is outside the range
of `Char` and comes out as `Char.ofNat`'s fallback. -/

/-- 1-based line number of a position in a document. -/
def lineOf (doc : Lc) (pos : Nat) : Nat := (doc.take pos).count '\n' + 1

/-- Distance to the first newline, if any. -/
def distToNl : Lc → Option Nat
  | [] => none
  | c :: rest => if c = '\n' then some 0 else (distToNl rest).map (· + 1)

/-- 1-based column number of a position in a document
(`pos - doc.rfind(nl, 0, pos)` in CPython). -/
def colOf (doc : Lc) (pos : Nat) : Nat :=
  match distToNl (doc.take pos).reverse with
  | some d => d + 1
  | none => pos + 1

/-- A single-quote character, used by Python inside some error messages. -/
def sq : Lc := [Char.ofNat 39]

/-- `"Expecting ',' delimiter"` (the delimiter single-quoted, as CPython
writes it). -/
def expectingDelim (d : Char) : Lc :=
  "Expecting ".data ++ sq ++ [d] ++ sq ++ " delimiter".data

/-- A `JSONDecodeError` message: `msg ++ ": line L column C (char P)"`. -/
def errAt (msg : Lc) (doc : Lc) (pos : Nat) : Lc :=
  msg ++ ": line ".data ++ natToDec (lineOf doc pos) ++ " column ".data
    ++ natToDec (colOf doc pos) ++ " (char ".data ++ natToDec pos ++ [')']

/-- JSON whitespace (space, tab, newline, carriage return). -/
def isJsonWs (c : Char) : Bool :=
  c = ' ' ∨ c = '\t' ∨ c = '\n' ∨ c = Char.ofNat 13

/-- Skip JSON whitespace, tracking the position. -/
def skipWs : Lc → Nat → Lc × Nat
  | [], pos => ([], pos)
  | c :: rest, pos =>
    if isJsonWs c then skipWs rest (pos + 1) else (c :: rest, pos)

/-- Value of one hex digit. -/
def hexVal (c : Char) : Option Nat :=
  if 48 ≤ c.toNat ∧ c.toNat ≤ 57 then some (c.toNat - 48)
  else if 97 ≤ c.toNat ∧ c.toNat ≤ 102 then some (c.toNat - 87)
  else if 65 ≤ c.toNat ∧ c.toNat ≤ 70 then some (c.toNat - 55)
  else none

/-- Four hex digits after `\u`. -/
def parseHex4 : Lc → Option (Nat × Lc)
  | a :: b :: c :: d :: rest =>
    match hexVal a, hexVal b, hexVal c, hexVal d with
    | some x, some y, some z, some w => some (4096 * x + 256 * y + 16 * z + w, rest)
    | _, _, _, _ => none
  | _ => none

/-- Scan a JSON string body. `begin` is the position of the opening quote,
`pos` the position just after it. Returns the decoded characters, the rest
and the position after the closing quote. -/
def scanString (doc : Lc) (begin : Nat) : Nat → Lc → Nat →
    Except Lc (Lc × Lc × Nat)
  | 0, _, _ => .error (errAt "Unterminated string starting at".data doc begin)
  | _ + 1, [], _ => .error (errAt "Unterminated string starting at".data doc begin)
  | fuel + 1, c :: rest, pos =>
    if c = Char.ofNat 34 then .ok ([], rest, pos + 1)
    else if c = '\\' then
      match rest with
      | [] => .error (errAt "Unterminated string starting at".data doc begin)
      | e :: rest2 =>
        if e = 'u' then
          match parseHex4 rest2 with
          | none => .error (errAt "Invalid \\uXXXX escape".data doc (pos + 1))
          | some (n, rest3) =>
            if 55296 ≤ n ∧ n ≤ 56319 then
              match rest3 with
              | '\\' :: 'u' :: rest4 =>
                match parseHex4 rest4 with
                | some (n2, rest5) =>
                  if 56320 ≤ n2 ∧ n2 ≤ 57343 then
                    (scanString doc begin fuel rest5 (pos + 12)).map
                      (fun (s, r, p) =>
                        (Char.ofNat (65536 + (n - 55296) * 1024 + (n2 - 56320)) :: s,
                         r, p))
                  else
                    (scanString doc begin fuel ('\\' :: 'u' :: rest4) (pos + 6)).map
                      (fun (s, r, p) => (Char.ofNat n :: s, r, p))
                | none =>
                  (scanString doc begin fuel ('\\' :: 'u' :: rest4) (pos + 6)).map
                    (fun (s, r, p) => (Char.ofNat n :: s, r, p))
              | _ =>
                (scanString doc begin fuel rest3 (pos + 6)).map
                  (fun (s, r, p) => (Char.ofNat n :: s, r, p))
            else
              (scanString doc begin fuel rest3 (pos + 6)).map
                (fun (s, r, p) => (Char.ofNat n :: s, r, p))
        else
          let esc : Option Char :=
            if e = Char.ofNat 34 then some (Char.ofNat 34)
            else if e = '\\' then some '\\'
            else if e = '/' then some '/'
            else if e = 'b' then some (Char.ofNat 8)
            else if e = 'f' then some (Char.ofNat 12)
            else if e = 'n' then some '\n'
            else if e = 'r' then some (Char.ofNat 13)
            else if e = 't' then some '\t'
            else none
          match esc with
          | none => .error (errAt "Invalid \\escape".data doc pos)
          | some ch =>
            (scanString doc begin fuel rest2 (pos + 2)).map
              (fun (s, r, p) => (ch :: s, r, p))
    else if c.toNat < 32 then
      .error (errAt "Invalid control character at".data doc pos)
    else
      (scanString doc begin fuel rest (pos + 1)).map
        (fun (s, r, p) => (c :: s, r, p))

/-- Decimal digit. -/
def isDigit (c : Char) : Bool := 48 ≤ c.toNat ∧ c.toNat ≤ 57

/-- Leading digits and the rest. -/
def takeDigits : Lc → Lc × Lc
  | [] => ([], [])
  | c :: rest =>
    if isDigit c then
      let (d, r) := takeDigits rest
      (c :: d, r)
    else ([], c :: rest)

/-- Match CPython's `NUMBER_RE` at the current position: an optional sign,
`0` or a nonzero-led digit run, an optional `.digits` fraction and an
optional exponent. Returns the matched literal, whether it is integral,
the rest and the new position. -/
def scanNumber (rem : Lc) : Option (Lc × Bool × Lc × Nat) :=
  let (sign, r1) :=
    match rem with
    | '-' :: r => (['-'], r)
    | _ => (([] : Lc), rem)
  match r1 with
  | c :: r2 =>
    if c = '0' then
      let intPart := [c]
      let (frac, r3) :=
        match r2 with
        | '.' :: r =>
          match takeDigits r with
          | ([], _) => (([] : Lc), r2)
          | (ds, r4) => ('.' :: ds, r4)
        | _ => (([] : Lc), r2)
      let (ex, r5) :=
        match r3 with
        | e :: s :: r =>
          if (e = 'e' ∨ e = 'E') ∧ (s = '+' ∨ s = '-') then
            match takeDigits r with
            | ([], _) => (([] : Lc), r3)
            | (ds, r6) => ([e, s] ++ ds, r6)
          else if (e = 'e' ∨ e = 'E') ∧ isDigit s then
            match takeDigits (s :: r) with
            | ([], _) => (([] : Lc), r3)
            | (ds, r6) => (e :: ds, r6)
          else (([] : Lc), r3)
        | [e] =>
          if e = 'e' ∨ e = 'E' then (([] : Lc), r3) else (([] : Lc), r3)
        | [] => (([] : Lc), r3)
      let lit := sign ++ intPart ++ frac ++ ex
      some (lit, frac = [] ∧ ex = [], r5, lit.length)
    else if isDigit c then
      let (ds, r3) := takeDigits r2
      let intPart := c :: ds
      let (frac, r4) :=
        match r3 with
        | '.' :: r =>
          match takeDigits r with
          | ([], _) => (([] : Lc), r3)
          | (fs, r5) => ('.' :: fs, r5)
        | _ => (([] : Lc), r3)
      let (ex, r6) :=
        match r4 with
        | e :: s :: r =>
          if (e = 'e' ∨ e = 'E') ∧ (s = '+' ∨ s = '-') then
            match takeDigits r with
            | ([], _) => (([] : Lc), r4)
            | (ds2, r7) => ([e, s] ++ ds2, r7)
          else if (e = 'e' ∨ e = 'E') ∧ isDigit s then
            match takeDigits (s :: r) with
            | ([], _) => (([] : Lc), r4)
            | (ds2, r7) => (e :: ds2, r7)
          else (([] : Lc), r4)
        | _ => (([] : Lc), r4)
      let lit := sign ++ intPart ++ frac ++ ex
      some (lit, frac = [] ∧ ex = [], r6, lit.length)
    else none
  | [] => none

/-- Digits to a natural number. -/
def decToNat (l : Lc) : Nat := l.foldl (fun acc c => acc * 10 + (c.toNat - 48)) 0

/-- A signed decimal literal as an `Int`. -/
def decToInt : Lc → Int
  | '-' :: ds => -(decToNat ds : Int)
  | ds => (decToNat ds : Int)

mutual

/-- Parse one JSON value at `pos`; `rem` is `doc` with `pos` characters
dropped. Mirrors CPython's `scan_once`. -/
def parseValue (doc : Lc) (fuel : Nat) (rem : Lc) (pos : Nat) :
    Except Lc (JsonValue × Lc × Nat) :=
  match fuel, rem, pos with
  | 0, _, pos => .error (errAt "Expecting value".data doc pos)
  | _ + 1, [], pos => .error (errAt "Expecting value".data doc pos)
  | fuel + 1, c :: rest, pos =>
    if c = Char.ofNat 34 then
      (scanString doc pos (doc.length + 1) rest (pos + 1)).map
        (fun (s, r, p) => (.str s, r, p))
    else if c = Char.ofNat 123 then
      parseObj doc fuel rest (pos + 1)
    else if c = '[' then
      parseArrFirst doc fuel rest (pos + 1)
    else if c = 'n' then
      match rest with
      | 'u' :: 'l' :: 'l' :: r => .ok (.null, r, pos + 4)
      | _ => .error (errAt "Expecting value".data doc pos)
    else if c = 't' then
      match rest with
      | 'r' :: 'u' :: 'e' :: r => .ok (.bool true, r, pos + 4)
      | _ => .error (errAt "Expecting value".data doc pos)
    else if c = 'f' then
      match rest with
      | 'a' :: 'l' :: 's' :: 'e' :: r => .ok (.bool false, r, pos + 5)
      | _ => .error (errAt "Expecting value".data doc pos)
    else if c = 'N' then
      match rest with
      | 'a' :: 'N' :: r => .ok (.numLit "NaN".data, r, pos + 3)
      | _ => .error (errAt "Expecting value".data doc pos)
    else if c = 'I' then
      match rest with
      | 'n' :: 'f' :: 'i' :: 'n' :: 'i' :: 't' :: 'y' :: r =>
        .ok (.numLit "Infinity".data, r, pos + 8)
      | _ => .error (errAt "Expecting value".data doc pos)
    else if c = '-' ∧ rest.take 8 = "Infinity".data then
      .ok (.numLit "-Infinity".data, rest.drop 8, pos + 9)
    else
      match scanNumber (c :: rest) with
      | some (lit, integral, r, len) =>
        if integral then .ok (.num (decToInt lit), r, pos + len)
        else .ok (.numLit lit, r, pos + len)
      | none => .error (errAt "Expecting value".data doc pos)
termination_by structural fuel

/-- Parse an object body after `{`. -/
def parseObj (doc : Lc) (fuel : Nat) (rem : Lc) (pos : Nat) :
    Except Lc (JsonValue × Lc × Nat) :=
  match fuel, rem, pos with
  | 0, _, pos => .error (errAt "Expecting value".data doc pos)
  | fuel + 1, rem, pos =>
    let (r1, p1) := skipWs rem pos
    match r1 with
    | c :: r2 =>
      if c = Char.ofNat 125 then .ok (.obj [], r2, p1 + 1)
      else if c = Char.ofNat 34 then
        parseObjItems doc fuel [] (c :: r2) p1
      else
        .error (errAt "Expecting property name enclosed in double quotes".data doc p1)
    | [] =>
      .error (errAt "Expecting property name enclosed in double quotes".data doc p1)
termination_by structural fuel

/-- Parse object entries; the head of the input is the opening quote of the
next property name. -/
def parseObjItems (doc : Lc) (fuel : Nat) (acc : List (Lc × JsonValue))
    (rem : Lc) (pos : Nat) : Except Lc (JsonValue × Lc × Nat) :=
  match fuel, acc, rem, pos with
  | 0, _, _, pos => .error (errAt "Expecting value".data doc pos)
  | fuel + 1, acc, rem, pos =>
    match rem with
    | c :: r1 =>
      if c = Char.ofNat 34 then
        match scanString doc pos (doc.length + 1) r1 (pos + 1) with
        | .error e => .error e
        | .ok (key, r2, p2) =>
          let (r3, p3) := skipWs r2 p2
          match r3 with
          | ':' :: r4 =>
            let (r5, p5) := skipWs r4 (p3 + 1)
            match parseValue doc fuel r5 p5 with
            | .error e => .error e
            | .ok (v, r6, p6) =>
              let (r7, p7) := skipWs r6 p6
              match r7 with
              | d :: r8 =>
                if d = Char.ofNat 125 then .ok (.obj (acc ++ [(key, v)]), r8, p7 + 1)
                else if d = ',' then
                  let (r9, p9) := skipWs r8 (p7 + 1)
                  match r9 with
                  | e :: r10 =>
                    if e = Char.ofNat 34 then
                      parseObjItems doc fuel (acc ++ [(key, v)]) (e :: r10) p9
                    else
                      .error (errAt
                        "Expecting property name enclosed in double quotes".data doc p9)
                  | [] =>
                    .error (errAt
                      "Expecting property name enclosed in double quotes".data doc p9)
                else .error (errAt (expectingDelim (Char.ofNat 44)) doc p7)
              | [] => .error (errAt (expectingDelim (Char.ofNat 44)) doc p7)
          | _ => .error (errAt (expectingDelim (Char.ofNat 58)) doc p3)
      else
        .error (errAt "Expecting property name enclosed in double quotes".data doc pos)
    | [] =>
      .error (errAt "Expecting property name enclosed in double quotes".data doc pos)
termination_by structural fuel

/-- Parse an array body after `[`. -/
def parseArrFirst (doc : Lc) (fuel : Nat) (rem : Lc) (pos : Nat) :
    Except Lc (JsonValue × Lc × Nat) :=
  match fuel, rem, pos with
  | 0, _, pos => .error (errAt "Expecting value".data doc pos)
  | fuel + 1, rem, pos =>
    let (r1, p1) := skipWs rem pos
    match r1 with
    | ']' :: r2 => .ok (.arr [], r2, p1 + 1)
    | _ =>
      match parseValue doc fuel r1 p1 with
      | .error e => .error e
      | .ok (v, r2, p2) => parseArrItems doc fuel [v] r2 p2
termination_by structural fuel

/-- Parse array continuations after a parsed element. -/
def parseArrItems (doc : Lc) (fuel : Nat) (acc : List JsonValue) (rem : Lc)
    (pos : Nat) : Except Lc (JsonValue × Lc × Nat) :=
  match fuel, acc, rem, pos with
  | 0, _, _, pos => .error (errAt "Expecting value".data doc pos)
  | fuel + 1, acc, rem, pos =>
    let (r1, p1) := skipWs rem pos
    match r1 with
    | ']' :: r2 => .ok (.arr acc, r2, p1 + 1)
    | ',' :: r2 =>
      let (r3, p3) := skipWs r2 (p1 + 1)
      match parseValue doc fuel r3 p3 with
      | .error e => .error e
      | .ok (v, r4, p4) => parseArrItems doc fuel (acc ++ [v]) r4 p4
    | _ => .error (errAt (expectingDelim (Char.ofNat 44)) doc p1)

termination_by structural fuel
end

/-- `json.loads(doc)`: skip leading whitespace, parse one value, require
only whitespace after it (`"Extra data"` otherwise). -/
def loads (doc : Lc) : Except Lc JsonValue :=
  let (rem, pos) := skipWs doc 0
  match parseValue doc (2 * doc.length + 8) rem pos with
  | .error e => .error e
  | .ok (v, rest, p) =>
    let (rest2, p2) := skipWs rest p
    match rest2 with
    | [] => .ok v
    | _ => .error (errAt "Extra data".data doc p2)

/-! ## `urllib.parse` (CPython 3.8)

`urlsplit`, `urlunsplit`, `urlparse`, `urlunparse` and `urljoin` as in
CPython 3.8's `Lib/urllib/parse.py` (the RFC 3986 rewrite used by the
`six.PY3` import branch of `api.py`). The IPv6-bracket `ValueError` check
of `urlsplit` is not modelled; no input in this development produces a
bracketed netloc. -/

/-- The result of `urlsplit`. -/
structure SplitResult where
  scheme : Lc
  netloc : Lc
  path : Lc
  query : Lc
  fragment : Lc
deriving DecidableEq

/-- The result of `urlparse` (path parameters split off). -/
structure ParseResult where
  scheme : Lc
  netloc : Lc
  path : Lc
  params : Lc
  query : Lc
  fragment : Lc
deriving DecidableEq

/-- Split at the first occurrence of a character: the part before it and
the part after it, or `none` when the character is absent. -/
def splitOnce (c : Char) : Lc → Option (Lc × Lc)
  | [] => none
  | a :: rest =>
    if a = c then some ([], rest)
    else (splitOnce c rest).map (fun (p, s) => (a :: p, s))

/-- Split at the last occurrence of a character. -/
def splitLast (c : Char) (l : Lc) : Option (Lc × Lc) :=
  (splitOnce c l.reverse).map (fun (p, s) => (s.reverse, p.reverse))

/-- `scheme_chars`: letters, digits and `+-.`. -/
def isSchemeChar (c : Char) : Bool :=
  (65 ≤ c.toNat ∧ c.toNat ≤ 90) ∨ (97 ≤ c.toNat ∧ c.toNat ≤ 122)
    ∨ isDigit c ∨ c = '+' ∨ c = '-' ∨ c = '.'

/-- ASCII lowercasing (schemes are checked to be ASCII before this runs). -/
def asciiLower (s : Lc) : Lc :=
  s.map (fun c => if 65 ≤ c.toNat ∧ c.toNat ≤ 90 then Char.ofNat (c.toNat + 32) else c)

/-- A netloc delimiter (`/`, `?` or `#`). -/
def isNetlocDelim (c : Char) : Bool := c = '/' ∨ c = '?' ∨ c = '#'

/-- `_splitnetloc`: everything after `//` up to the first `/`, `?` or `#`. -/
def splitnetloc (url : Lc) : Lc × Lc :=
  (url.takeWhile (fun c => ¬ isNetlocDelim c), url.dropWhile (fun c => ¬ isNetlocDelim c))

/-- The scheme-detection stage of `urlsplit`: strip `scheme:` when the
part before the first `:` is a nonempty run of scheme characters,
otherwise fall back to the default scheme. -/
def splitScheme (url dscheme : Lc) : Lc × Lc :=
  match splitOnce ':' url with
  | some (pre, rest) =>
    if pre ≠ [] ∧ pre.all isSchemeChar then (asciiLower pre, rest)
    else (dscheme, url)
  | none => (dscheme, url)

/-- The netloc stage of `urlsplit`: split a netloc exactly when the
remaining URL starts with `//`. -/
def splitNetlocStage (url : Lc) : Lc × Lc :=
  match url with
  | '/' :: '/' :: rest => splitnetloc rest
  | _ => ([], url)

/-- The fragment stage of `urlsplit`: split at the first `#`, if any. -/
def splitFragment (url : Lc) : Lc × Lc :=
  match splitOnce '#' url with
  | some (pre, rest) => (pre, rest)
  | none => (url, [])

/-- The query stage of `urlsplit`: split at the first `?`, if any. -/
def splitQuery (url : Lc) : Lc × Lc :=
  match splitOnce '?' url with
  | some (pre, rest) => (pre, rest)
  | none => (url, [])

/-- CPython 3.8 `urlsplit(url, scheme)`; the second argument is the
default scheme used when the URL carries none. -/
def urlsplitD (url : Lc) (dscheme : Lc) : SplitResult :=
  let (scheme, url1) := splitScheme url dscheme
  let (netloc, url2) := splitNetlocStage url1
  let (url3, fragment) := splitFragment url2
  let (url4, query) := splitQuery url3
  ⟨scheme, netloc, url4, query, fragment⟩

/-- CPython `urlunsplit`. -/
def urlunsplit (p : SplitResult) : Lc :=
  let url :=
    if p.netloc ≠ [] ∨ p.path.take 2 = "//".data then
      "//".data ++ p.netloc
        ++ (if p.path ≠ [] ∧ p.path.take 1 ≠ "/".data then '/' :: p.path else p.path)
    else p.path
  let url1 := if p.scheme ≠ [] then p.scheme ++ ':' :: url else url
  let url2 := if p.query ≠ [] then url1 ++ '?' :: p.query else url1
  if p.fragment ≠ [] then url2 ++ '#' :: p.fragment else url2

/-- `uses_params`. -/
def usesParams : List Lc :=
  [[], "ftp".data, "hdl".data, "prospero".data, "http".data, "imap".data,
   "https".data, "shttp".data, "rtsp".data, "rtspu".data, "sip".data,
   "sips".data, "mms".data, "sftp".data, "tel".data]

/-- `uses_relative`. -/
def usesRelative : List Lc :=
  [[], "ftp".data, "http".data, "gopher".data, "nntp".data, "imap".data,
   "wais".data, "file".data, "https".data, "shttp".data, "mms".data,
   "prospero".data, "rtsp".data, "rtspu".data, "sftp".data, "svn".data,
   "svn+ssh".data, "ws".data, "wss".data]

/-- `uses_netloc`. -/
def usesNetloc : List Lc :=
  [[], "ftp".data, "http".data, "gopher".data, "nntp".data, "telnet".data,
   "imap".data, "wais".data, "file".data, "mms".data, "https".data,
   "shttp".data, "snews".data, "prospero".data, "rtsp".data, "rtspu".data,
   "rsync".data, "svn".data, "svn+ssh".data, "sftp".data, "nfs".data,
   "git".data, "git+ssh".data, "ws".data, "wss".data]

/-- `_splitparams`: split path parameters at the first `;` after the last
`/` (or the first `;` at all when the path has no `/`). -/
def splitparams (url : Lc) : Lc × Lc :=
  match splitLast '/' url with
  | some (pre, lastSeg) =>
    match splitOnce ';' lastSeg with
    | some (a, b) => (pre ++ '/' :: a, b)
    | none => (url, [])
  | none =>
    match splitOnce ';' url with
    | some (a, b) => (a, b)
    | none => (url, [])

/-- CPython 3.8 `urlparse(url, scheme)`. -/
def urlparseD (url : Lc) (dscheme : Lc) : ParseResult :=
  let s := urlsplitD url dscheme
  if s.scheme ∈ usesParams ∧ ';' ∈ s.path then
    let (p, params) := splitparams s.path
    ⟨s.scheme, s.netloc, p, params, s.query, s.fragment⟩
  else ⟨s.scheme, s.netloc, s.path, [], s.query, s.fragment⟩

/-- CPython `urlunparse`. -/
def urlunparse (p : ParseResult) : Lc :=
  let url := if p.params ≠ [] then p.path ++ ';' :: p.params else p.path
  urlunsplit ⟨p.scheme, p.netloc, url, p.query, p.fragment⟩

/-- Python `str.split(sep)` for a one-character separator (never returns
an empty list). -/
def splitChar (c : Char) : Lc → List Lc
  | [] => [[]]
  | a :: rest =>
    if a = c then [] :: splitChar c rest
    else
      match splitChar c rest with
      | s :: ss => (a :: s) :: ss
      | [] => [[a]]

/-- `segments[1:-1] = filter(None, segments[1:-1])`: drop empty segments
other than the first and the last. -/
def filterMiddle : List Lc → List Lc
  | [] => []
  | [a] => [a]
  | a :: b :: rest =>
    a :: ((b :: rest).dropLast.filter (fun s => s ≠ [])) ++ [(b :: rest).getLastD []]

/-- The `..` / `.` resolution loop of `urljoin` (`pop` on an empty list is
a no-op). -/
def resolveSegs (acc : List Lc) : List Lc → List Lc
  | [] => acc
  | s :: rest =>
    if s = "..".data then resolveSegs acc.dropLast rest
    else if s = ".".data then resolveSegs acc rest
    else resolveSegs (acc ++ [s]) rest

/-- CPython 3.8 `urljoin(base, url)`. -/
def urljoin (base url : Lc) : Lc :=
  if base = [] then url
  else if url = [] then base
  else
    let b := urlparseD base []
    let r := urlparseD url b.scheme
    if ¬ (r.scheme = b.scheme ∧ r.scheme ∈ usesRelative) then url
    else if r.scheme ∈ usesNetloc ∧ r.netloc ≠ [] then
      urlunparse ⟨r.scheme, r.netloc, r.path, r.params, r.query, r.fragment⟩
    else
      let netloc := if r.scheme ∈ usesNetloc then b.netloc else r.netloc
      if r.path = [] ∧ r.params = [] then
        let query := if r.query = [] then b.query else r.query
        urlunparse ⟨r.scheme, netloc, b.path, b.params, query, r.fragment⟩
      else
        let baseParts0 := splitChar '/' b.path
        let baseParts :=
          if baseParts0.getLastD [] ≠ [] then baseParts0.dropLast else baseParts0
        let segments :=
          if r.path.take 1 = "/".data then splitChar '/' r.path
          else filterMiddle (baseParts ++ splitChar '/' r.path)
        let resolved0 := resolveSegs [] segments
        let resolved :=
          if segments.getLastD [] = ".".data ∨ segments.getLastD [] = "..".data then
            resolved0 ++ [[]]
          else resolved0
        let joined := List.intercalate ['/'] resolved
        urlunparse ⟨r.scheme, netloc,
          (if joined = [] then "/".data else joined), r.params, r.query, r.fragment⟩

/-! ## The `conf` module and the transport

`conf` and `pyuploadcare.exceptions` are collaborators of `api.py`; the
configuration is a read-only record, the exception classes carry their
constructor argument as the diagnostic payload. The HTTP transport
(`requests.request`) is a function parameter from the request sent to the
observed outcome; applying it is the network I/O of the call. -/

/-- The process-wide configuration read from the `conf` module.
`secret = none` models `conf.secret = None`, whose missing `.encode`
raises the `AttributeError` that line 92 of `api.py` turns into an empty
HMAC key. `client_version` models `pyuploadcare.__version__`. -/
structure Conf where
  pub_key : Lc
  secret : Option Lc
  api_base : Lc
  upload_base : Lc
  api_version : Lc
  verify_api_ssl : Bool
  verify_upload_ssl : Bool
  client_version : Lc

/-- An HTTP response as the two request functions observe it: the status
code and the body (used both by `.json()` and, as `.content`, in error
payloads). -/
structure HttpResponse where
  status_code : Nat
  content : Lc

/-- The outcome of `requests.request`: a `requests.RequestException`
(whose `args[0]` message is carried) or a response. -/
inductive TransportResult where
  | exn (msg : Lc)
  | resp (r : HttpResponse)

/-- The request `rest_request` hands to `requests.request`. -/
structure SentRest where
  verb : Lc
  url : Lc
  allow_redirects : Bool
  verify : Bool
  headers : List (Lc × Lc)
  body : Lc

/-- The request `uploading_request` hands to `requests.request`. -/
structure SentUpload where
  verb : Lc
  url : Lc
  allow_redirects : Bool
  verify : Bool
  data : List (Lc × Lc)
  files : List (Lc × Lc)

/-- The exceptions of `pyuploadcare.exceptions` raised by the two request
functions, each carrying its diagnostic payload. -/
inductive PyErr where
  | APIConnectionError (payload : Lc)
  | AuthenticationError (payload : Lc)
  | InvalidRequestError (payload : Lc)
  | APIError (payload : Lc)
deriving DecidableEq

/-- How a call terminates: the `AssertionError` of the leading-slash
assert (carrying the path, its `assert` message), a raised exception, a
parsed JSON structure, or `None` — the bare `return` on HTTP 204. -/
inductive Outcome where
  | assertionError (arg : Lc)
  | raised (e : PyErr)
  | value (j : JsonValue)
  | noContent

/-! ## `rest_request` (lines 35–144) -/

/-- Python `path.startswith(sep)` for the one-character separator `/`. -/
def startsSlash (l : Lc) : Bool := l.take 1 = "/".data

/-- Lines 65–71: resolve the path against the REST base URL and read the
signed path (path component, plus `?query` when a query string is
present) off the resolved URL. -/
def signedPath (api_base path : Lc) : Lc :=
  let url_parts := urlsplitD (urljoin api_base path) []
  if url_parts.query ≠ [] then url_parts.path ++ '?' :: url_parts.query
  else url_parts.path

/-- Lines 73–75: the serialized body, `''` when there is no payload. -/
def contentOf : Option JsonValue → Lc
  | none => []
  | some d => dumps d

/-- Lines 81–87: the canonical sign string — verb, body MD5, content type,
date and path joined by newlines. -/
def signString (verb content_md5 content_type date path : Lc) : Lc :=
  List.intercalate ['\n'] [verb, content_md5, content_type, date, path]

/-- Lines 90–93: the HMAC key — the UTF-8 encoded secret, or `bytes()`
when the secret is unset. -/
def secretBytes : Option Lc → Bytes
  | some s => utf8Encode s
  | none => []

/-- Lines 73–95: the hex HMAC-SHA1 signature of a REST request. -/
def restSign (conf : Conf) (verb path : Lc) (data : Option JsonValue)
    (date : Lc) : Lc :=
  hmacSha1Hex (secretBytes conf.secret)
    (utf8Encode (signString verb (md5Hex (utf8Encode (contentOf data)))
      "application/json".data date (signedPath conf.api_base path)))

/-- Lines 97–104: the header dictionary, in insertion order. -/
def restHeaders (conf : Conf) (verb path : Lc) (data : Option JsonValue)
    (date : Lc) : List (Lc × Lc) :=
  [("Authorization".data,
    "Uploadcare ".data ++ conf.pub_key ++ ':' :: restSign conf verb path data date),
   ("Date".data, date),
   ("Content-Type".data, "application/json".data),
   ("Content-Length".data, natToDec (contentOf data).length),
   ("Accept".data,
    "application/vnd.uploadcare-v".data ++ conf.api_version ++ "+json".data),
   ("User-Agent".data, "pyuploadcare/".data ++ conf.client_version)]

/-- One `rest_request` call: the request sent over the network (`none`
when the assertion fired first) and how the call terminated. -/
structure RestCall where
  sent : Option SentRest
  outcome : Outcome

/-- `rest_request(verb, path, data)` of `api.py`. `date` is the RFC 2822
GMT timestamp `email.utils.formatdate(usegmt=True)` computed during the
call; `net` is the HTTP transport. -/
def rest_request (conf : Conf) (verb path : Lc) (data : Option JsonValue)
    (date : Lc) (net : SentRest → TransportResult) : RestCall :=
  if startsSlash path then ⟨none, .assertionError path⟩
  else
    let url := urljoin conf.api_base path
    let content := contentOf data
    let req : SentRest :=
      ⟨verb, url, true, conf.verify_api_ssl, restHeaders conf verb path data date,
       content⟩
    match net req with
    | .exn msg => ⟨some req, .raised (.APIConnectionError msg)⟩
    | .resp r =>
      if r.status_code = 200 then
        match loads r.content with
        | .ok j => ⟨some req, .value j⟩
        | .error e => ⟨some req, .raised (.APIError e)⟩
      else if r.status_code = 204 then ⟨some req, .noContent⟩
      else if r.status_code = 403 then
        ⟨some req, .raised (.AuthenticationError r.content)⟩
      else if r.status_code = 400 ∨ r.status_code = 404 then
        ⟨some req, .raised (.InvalidRequestError r.content)⟩
      else ⟨some req, .raised (.APIError r.content)⟩

/-! ## `uploading_request` (lines 147–188) -/

/-- Python dict item assignment `d[k] = v`: overwrite in place when the
key exists, else append; insertion order is preserved. -/
def dictSet (d : List (Lc × Lc)) (k v : Lc) : List (Lc × Lc) :=
  if d.any (fun p => p.1 = k) then
    d.map (fun p => if p.1 = k then (k, v) else p)
  else d ++ [(k, v)]

/-- Python `d.get(k)` on an insertion-ordered dict. -/
def dictGet (d : List (Lc × Lc)) (k : Lc) : Option Lc :=
  (d.find? (fun p => p.1 = k)).map (fun p => p.2)

/-- One `uploading_request` call: the request sent (`none` when the
assertion fired), the outcome, and the final state of the (caller-visible,
mutated-in-place) form-data dict. -/
structure UploadCall where
  sent : Option SentUpload
  outcome : Outcome
  dataAfter : List (Lc × Lc)

/-- Lines 167–170: the form dict after the two public-key assignments. -/
def uploadForm (d : List (Lc × Lc)) (pub_key : Lc) : List (Lc × Lc) :=
  dictSet (dictSet d "pub_key".data pub_key) "UPLOADCARE_PUB_KEY".data pub_key

/-- `uploading_request(verb, path, data, files)` of `api.py`. -/
def uploading_request (conf : Conf) (verb path : Lc)
    (data : Option (List (Lc × Lc))) (files : List (Lc × Lc))
    (net : SentUpload → TransportResult) : UploadCall :=
  if startsSlash path then ⟨none, .assertionError path, data.getD []⟩
  else
    let url := urljoin conf.upload_base path
    let d1 := uploadForm (data.getD []) conf.pub_key
    let req : SentUpload := ⟨verb, url, true, conf.verify_upload_ssl, d1, files⟩
    match net req with
    | .exn msg => ⟨some req, .raised (.APIConnectionError msg), d1⟩
    | .resp r =>
      if r.status_code = 200 then
        match loads r.content with
        | .ok j => ⟨some req, .value j, d1⟩
        | .error e => ⟨some req, .raised (.APIError e), d1⟩
      else if r.status_code = 400 ∨ r.status_code = 404 then
        ⟨some req, .raised (.InvalidRequestError r.content), d1⟩
      else ⟨some req, .raised (.APIError r.content), d1⟩

/-! ## Fixtures used by concrete witnesses -/

/-- A concrete configuration with the library's default base URLs. -/
def conf₀ : Conf :=
  ⟨"demopublickey".data, some "demoprivatekey".data,
   "https://api.uploadcare.com/".data, "https://upload.uploadcare.com/".data,
   "0.2".data, true, true, "1.3.6".data⟩

/-- A transport returning a fixed response. -/
def constResp (r : HttpResponse) : SentRest → TransportResult := fun _ => .resp r

/-- An upload transport returning a fixed response. -/
def constRespU (r : HttpResponse) : SentUpload → TransportResult := fun _ => .resp r

/-! ## Basic lemmas -/

theorem utf8Encode_cons (c : Char) (s : Lc) :
    utf8Encode (c :: s) = utf8Char c ++ utf8Encode s := rfl

theorem utf8Char_length_of_ascii {c : Char} (h : c.toNat < 128) :
    (utf8Char c).length = 1 := by
  simp [utf8Char, h]

/-- The UTF-8 encoding of an all-ASCII string has one byte per character. -/
theorem utf8Encode_length_of_ascii {s : Lc} (h : ∀ c ∈ s, c.toNat < 128) :
    (utf8Encode s).length = s.length := by
  induction s with
  | nil => rfl
  | cons c rest ih =>
    rw [utf8Encode_cons, List.length_append,
      utf8Char_length_of_ascii (h c (by simp)), ih (fun x hx => h x (by simp [hx]))]
    simp only [List.length_cons]
    omega

theorem hexDigit_ascii {n : Nat} (h : n < 16) : (hexDigit n).toNat < 128 := by
  interval_cases n <;> decide

theorem natToDecAux_ascii (fuel : Nat) :
    ∀ (n : Nat), ∀ c ∈ natToDecAux fuel n, c.toNat < 128 := by
  induction fuel with
  | zero => intro n c hc; cases hc
  | succ f ih =>
    intro n c hc
    rw [natToDecAux] at hc
    by_cases h : n < 10
    · simp [h] at hc
      subst hc
      interval_cases n <;> decide
    · simp [h] at hc
      rcases hc with hc | hc
      · exact ih (n / 10) c hc
      · subst hc
        have h10 : n % 10 < 10 := Nat.mod_lt _ (by omega)
        generalize hm : n % 10 = m at h10 ⊢
        interval_cases m <;> decide

theorem natToDec_ascii (n : Nat) : ∀ c ∈ natToDec n, c.toNat < 128 :=
  natToDecAux_ascii (n + 1) n

theorem intToDec_ascii (i : Int) : ∀ c ∈ intToDec i, c.toNat < 128 := by
  intro c hc
  unfold intToDec at hc
  by_cases h : i < 0
  · simp [h] at hc
    rcases hc with hc | hc
    · subst hc; decide
    · exact natToDec_ascii _ c hc
  · simp [h] at hc
    exact natToDec_ascii _ c hc

theorem hexDigit4_ascii {n : Nat} : ∀ c ∈ hexDigit4 n, c.toNat < 128 := by
  intro c hc
  simp [hexDigit4] at hc
  rcases hc with hc | hc | hc | hc <;>
    { subst hc; exact hexDigit_ascii (Nat.mod_lt _ (by omega)) }

theorem jsonEscapeChar_ascii (c : Char) : ∀ x ∈ jsonEscapeChar c, x.toNat < 128 := by
  intro x hx
  unfold jsonEscapeChar at hx
  split_ifs at hx with h1 h2 h3 h4 h5 h6 h7 h8 h9
  · simp only [List.mem_cons, List.not_mem_nil, or_false] at hx; rcases hx with rfl | rfl <;> decide
  · simp only [List.mem_cons, List.not_mem_nil, or_false] at hx; rcases hx with rfl | rfl <;> decide
  · simp only [List.mem_cons, List.not_mem_nil, or_false] at hx; rcases hx with rfl | rfl <;> decide
  · simp only [List.mem_cons, List.not_mem_nil, or_false] at hx; rcases hx with rfl | rfl <;> decide
  · simp only [List.mem_cons, List.not_mem_nil, or_false] at hx; rcases hx with rfl | rfl <;> decide
  · simp only [List.mem_cons, List.not_mem_nil, or_false] at hx; rcases hx with rfl | rfl <;> decide
  · simp only [List.mem_cons, List.not_mem_nil, or_false] at hx; rcases hx with rfl | rfl <;> decide
  · simp only [List.mem_cons, List.not_mem_nil, or_false] at hx
    subst hx
    omega
  · simp only [List.mem_cons, List.not_mem_nil, or_false] at hx
    rcases hx with rfl | rfl | hx
    · decide
    · decide
    · exact hexDigit4_ascii x hx
  · simp only [List.mem_cons, List.mem_append, List.not_mem_nil, or_false] at hx
    rcases hx with (rfl | rfl | hx) | (rfl | rfl | hx)
    · decide
    · decide
    · exact hexDigit4_ascii x hx
    · decide
    · decide
    · exact hexDigit4_ascii x hx

theorem jsonQuote_ascii (s : Lc) : ∀ x ∈ jsonQuote s, x.toNat < 128 := by
  have aux : ∀ (t : Lc), ∀ x ∈ t.foldr (fun c acc => jsonEscapeChar c ++ acc)
      [Char.ofNat 34], x.toNat < 128 := by
    intro t
    induction t with
    | nil => intro x hx; simp at hx; subst hx; decide
    | cons c rest ih =>
      intro x hx
      simp only [List.foldr_cons, List.mem_append] at hx
      rcases hx with hx | hx
      · exact jsonEscapeChar_ascii c x hx
      · exact ih x hx
  intro x hx
  unfold jsonQuote at hx
  rcases List.mem_cons.mp hx with hx | hx
  · subst hx; decide
  · exact aux s x hx

mutual

/-- Every `numLit` literal inside the value is ASCII — true of every
literal a CPython float `repr` can produce, and of everything `loads`
returns. -/
def asciiLits : JsonValue → Bool
  | .null => true
  | .bool _ => true
  | .num _ => true
  | .numLit s => s.all (fun c => c.toNat < 128)
  | .str _ => true
  | .arr l => asciiLitsArr l
  | .obj l => asciiLitsObj l

/-- `asciiLits` over array elements. -/
def asciiLitsArr : List JsonValue → Bool
  | [] => true
  | v :: rest => asciiLits v && asciiLitsArr rest

/-- `asciiLits` over object entries. -/
def asciiLitsObj : List (Lc × JsonValue) → Bool
  | [] => true
  | (_, v) :: rest => asciiLits v && asciiLitsObj rest

end

mutual

/-- With `ensure_ascii=True`, `json.dumps` output is pure ASCII. -/
theorem dumps_ascii : ∀ (v : JsonValue), asciiLits v = true →
    ∀ c ∈ dumps v, c.toNat < 128
  | .null, _ => by decide
  | .bool true, _ => by decide
  | .bool false, _ => by decide
  | .num i, _ => by
    show ∀ c ∈ intToDec i, c.toNat < 128
    exact intToDec_ascii i
  | .numLit s, h => by
    show ∀ c ∈ s, c.toNat < 128
    intro c hc
    simpa using List.all_eq_true.mp h c hc
  | .str s, _ => by
    show ∀ c ∈ jsonQuote s, c.toNat < 128
    exact jsonQuote_ascii s
  | .arr l, h => by
    show ∀ c ∈ ('[' :: dumpsArr l) ++ [']'], c.toNat < 128
    refine List.forall_mem_append.mpr ⟨?_, by decide⟩
    exact List.forall_mem_cons.mpr ⟨by decide, dumpsArr_ascii l h⟩
  | .obj l, h => by
    show ∀ c ∈ (Char.ofNat 123 :: dumpsObj l) ++ [Char.ofNat 125], c.toNat < 128
    refine List.forall_mem_append.mpr ⟨?_, by decide⟩
    exact List.forall_mem_cons.mpr ⟨by decide, dumpsObj_ascii l h⟩

/-- `dumpsArr` output is pure ASCII. -/
theorem dumpsArr_ascii : ∀ (l : List JsonValue), asciiLitsArr l = true →
    ∀ c ∈ dumpsArr l, c.toNat < 128
  | [], _ => by intro c hc; cases hc
  | [x], h => by
    show ∀ c ∈ dumps x, c.toNat < 128
    exact dumps_ascii x
      (Bool.and_eq_true_iff.mp (show (asciiLits x && asciiLitsArr []) = true from h)).1
  | x :: y :: xs, h => by
    have h2 := Bool.and_eq_true_iff.mp
      (show (asciiLits x && asciiLitsArr (y :: xs)) = true from h)
    show ∀ c ∈ dumps x ++ ',' :: ' ' :: dumpsArr (y :: xs), c.toNat < 128
    refine List.forall_mem_append.mpr ⟨dumps_ascii x h2.1, ?_⟩
    refine List.forall_mem_cons.mpr ⟨by decide, ?_⟩
    exact List.forall_mem_cons.mpr ⟨by decide, dumpsArr_ascii (y :: xs) h2.2⟩

/-- `dumpsObj` output is pure ASCII. -/
theorem dumpsObj_ascii : ∀ (l : List (Lc × JsonValue)), asciiLitsObj l = true →
    ∀ c ∈ dumpsObj l, c.toNat < 128
  | [], _ => by intro c hc; cases hc
  | [(k, v)], h => by
    show ∀ c ∈ jsonQuote k ++ ':' :: ' ' :: dumps v, c.toNat < 128
    refine List.forall_mem_append.mpr ⟨jsonQuote_ascii k, ?_⟩
    refine List.forall_mem_cons.mpr ⟨by decide, ?_⟩
    refine List.forall_mem_cons.mpr ⟨by decide, ?_⟩
    exact dumps_ascii v
      (Bool.and_eq_true_iff.mp (show (asciiLits v && asciiLitsObj []) = true from h)).1
  | (k, v) :: e :: xs, h => by
    have h2 := Bool.and_eq_true_iff.mp
      (show (asciiLits v && asciiLitsObj (e :: xs)) = true from h)
    simp only [dumpsObj]
    refine List.forall_mem_append.mpr
      ⟨List.forall_mem_append.mpr ⟨jsonQuote_ascii k, ?_⟩, ?_⟩
    · refine List.forall_mem_cons.mpr ⟨by decide, ?_⟩
      exact List.forall_mem_cons.mpr ⟨by decide, dumps_ascii v h2.1⟩
    · refine List.forall_mem_cons.mpr ⟨by decide, ?_⟩
      exact List.forall_mem_cons.mpr ⟨by decide, dumpsObj_ascii (e :: xs) h2.2⟩

end

/-! ## The claims -/

/-- §4.1 of the specification, followed word for word: MD5-hex the UTF-8
body, build the canonical string `VERB`, body MD5, content type
`application/json`, date, path, joined by newlines, HMAC-SHA1 it under
the UTF-8 secret key (empty bytes when no secret is configured), and
hex-encode the digest. -/
def specSignature (secret : Option Lc) (verb resolvedPath body date : Lc) : Lc :=
  let content_md5 := md5Hex (utf8Encode body)
  let canonical :=
    verb ++ '\n' :: (content_md5 ++ '\n' :: ("application/json".data
      ++ '\n' :: (date ++ '\n' :: resolvedPath)))
  let key : Bytes :=
    match secret with
    | some s => utf8Encode s
    | none => []
  hmacSha1Hex key (utf8Encode canonical)

/-- The newline join of the five sign-string components, written out. -/
theorem signString_eq (a b c d e : Lc) :
    signString a b c d e
      = a ++ '\n' :: (b ++ '\n' :: (c ++ '\n' :: (d ++ '\n' :: e))) := by
  simp [signString, List.intercalate, List.intersperse]

/-- The signature the code computes is the one §4.1 describes. -/
theorem restSign_eq_spec (conf : Conf) (verb path : Lc)
    (data : Option JsonValue) (date : Lc) :
    restSign conf verb path data date
      = specSignature conf.secret verb (signedPath conf.api_base path)
          (contentOf data) date := by
  unfold restSign specSignature
  rw [signString_eq]
  cases conf.secret <;> rfl

/-- **C1**: for every verb, path, payload and date, the `Authorization`
header built by `rest_request` is `Uploadcare pub_key:signature` where the
signature is exactly the one §4.1 describes: hex HMAC-SHA1, under the
UTF-8 secret (empty bytes when unset), of the newline-joined verb, MD5 hex
digest of the UTF-8 body, `application/json`, date and resolved path. -/
theorem C1_authorization_header (conf : Conf) (verb path : Lc)
    (data : Option JsonValue) (date : Lc) :
    dictGet (restHeaders conf verb path data date) "Authorization".data
      = some ("Uploadcare ".data ++ conf.pub_key ++ ':'
          :: specSignature conf.secret verb (signedPath conf.api_base path)
            (contentOf data) date) := by
  rw [show dictGet (restHeaders conf verb path data date) "Authorization".data
      = some ("Uploadcare ".data ++ conf.pub_key
          ++ ':' :: restSign conf verb path data date) from rfl,
    restSign_eq_spec]

/-- **C5**: the `Content-Length` header equals the decimal byte length of
the UTF-8-serialized JSON body. (`api.py` writes the character count
`len(content)`; `json.dumps` with its default `ensure_ascii=True` only
produces ASCII, so the two coincide — the hypothesis guards the one
modelling artifact, non-ASCII `numLit` literals, which no Python float
`repr` produces.) -/
theorem C5_content_length (conf : Conf) (verb path : Lc)
    (data : Option JsonValue) (date : Lc)
    (h : ∀ v, data = some v → asciiLits v = true) :
    dictGet (restHeaders conf verb path data date) "Content-Length".data
      = some (natToDec (utf8Encode (contentOf data)).length) := by
  have hascii : ∀ c ∈ contentOf data, c.toNat < 128 := by
    cases data with
    | none => intro c hc; cases hc
    | some v => exact dumps_ascii v (h v rfl)
  have hlen : (utf8Encode (contentOf data)).length = (contentOf data).length :=
    utf8Encode_length_of_ascii hascii
  have hfind : dictGet (restHeaders conf verb path data date) "Content-Length".data
      = some (natToDec (contentOf data).length) := rfl
  rw [hfind, hlen]

/-- Witness for C5 at a payload whose serialization escapes a non-ASCII
character. -/
theorem C5_content_length_witness :
    asciiLits (JsonValue.obj [("name".data, .str "héllo".data)]) = true
  ∧ dictGet (restHeaders conf₀ "POST".data "files/".data
        (some (.obj [("name".data, .str "héllo".data)])) "date".data)
      "Content-Length".data
      = some (natToDec (utf8Encode
          (contentOf (some (.obj [("name".data, .str "héllo".data)])))).length) :=
  ⟨by decide, C5_content_length conf₀ "POST".data "files/".data
    (some (.obj [("name".data, .str "héllo".data)])) "date".data
    (fun v hv => by cases hv; decide)⟩

/-- **C7**: a path beginning with the separator `/` trips the `assert` in
both `rest_request` and `uploading_request` before any network I/O:
nothing is sent (`sent = none`), the call ends in the `AssertionError`
whatever the transport would have answered, and the upload form dict is
left untouched. -/
theorem C7_leading_slash_assert (conf : Conf) (verb path : Lc)
    (data : Option JsonValue) (date : Lc) (net : SentRest → TransportResult)
    (udata : Option (List (Lc × Lc))) (files : List (Lc × Lc))
    (unet : SentUpload → TransportResult) (h : startsSlash path = true) :
    rest_request conf verb path data date net = ⟨none, .assertionError path⟩
  ∧ uploading_request conf verb path udata files unet
      = ⟨none, .assertionError path, udata.getD []⟩ := by
  constructor
  · simp [rest_request, h]
  · simp [uploading_request, h]

/-- Witness for C7 at the absolute path `/files/`. -/
theorem C7_leading_slash_assert_witness :
    startsSlash "/files/".data = true
  ∧ rest_request conf₀ "GET".data "/files/".data none "date".data
      (constResp ⟨200, "[]".data⟩) = ⟨none, .assertionError "/files/".data⟩
  ∧ uploading_request conf₀ "POST".data "/files/".data
      (some [("k".data, "v".data)]) [] (constRespU ⟨200, "[]".data⟩)
      = ⟨none, .assertionError "/files/".data, [("k".data, "v".data)]⟩ :=
  ⟨rfl,
   (C7_leading_slash_assert conf₀ "GET".data "/files/".data none "date".data
     (constResp ⟨200, "[]".data⟩) (some [("k".data, "v".data)]) []
     (constRespU ⟨200, "[]".data⟩) rfl).1,
   (C7_leading_slash_assert conf₀ "POST".data "/files/".data none "date".data
     (constResp ⟨200, "[]".data⟩) (some [("k".data, "v".data)]) []
     (constRespU ⟨200, "[]".data⟩) rfl).2⟩

/-- The body `..."uuid": "abc"...` of the spec's status-200 example, with
its surrounding curly braces. -/
def uuidBody : Lc :=
  Char.ofNat 123 :: "\"uuid\": \"abc\"".data ++ [Char.ofNat 125]

/-- **C2**: the REST status dispatch. 200 with well-formed JSON returns
the parsed structure; 200 with malformed JSON raises `APIError` with the
parse error message; 204 returns no value; 403 raises
`AuthenticationError`; 400 and 404 raise `InvalidRequestError`; every
other status raises `APIError` with the response body. -/
theorem C2_rest_status_dispatch (conf : Conf) (verb path : Lc)
    (data : Option JsonValue) (date : Lc) (r : HttpResponse)
    (hp : startsSlash path = false) :
    (∀ j, r.status_code = 200 → loads r.content = .ok j →
      (rest_request conf verb path data date (constResp r)).outcome = .value j)
  ∧ (∀ e, r.status_code = 200 → loads r.content = .error e →
      (rest_request conf verb path data date (constResp r)).outcome
        = .raised (.APIError e))
  ∧ (r.status_code = 204 →
      (rest_request conf verb path data date (constResp r)).outcome = .noContent)
  ∧ (r.status_code = 403 →
      (rest_request conf verb path data date (constResp r)).outcome
        = .raised (.AuthenticationError r.content))
  ∧ (r.status_code = 400 ∨ r.status_code = 404 →
      (rest_request conf verb path data date (constResp r)).outcome
        = .raised (.InvalidRequestError r.content))
  ∧ (r.status_code ≠ 200 → r.status_code ≠ 204 → r.status_code ≠ 403 →
      r.status_code ≠ 400 → r.status_code ≠ 404 →
      (rest_request conf verb path data date (constResp r)).outcome
        = .raised (.APIError r.content)) := by
  refine ⟨?_, ?_, ?_, ?_, ?_, ?_⟩
  · intro j hs hl
    simp [rest_request, hp, constResp, hs, hl]
  · intro e hs hl
    simp [rest_request, hp, constResp, hs, hl]
  · intro hs
    simp [rest_request, hp, constResp, hs]
  · intro hs
    simp [rest_request, hp, constResp, hs]
  · rintro (hs | hs) <;> simp [rest_request, hp, constResp, hs]
  · intro h1 h2 h3 h4 h5
    simp [rest_request, hp, constResp, h1, h2, h3, h4, h5]

/-- Witness for C2 at the spec's example: status 200 with body
`..."uuid": "abc"...` comes back as the parsed mapping. -/
theorem C2_rest_status_dispatch_witness :
    startsSlash "files/".data = false
  ∧ (rest_request conf₀ "GET".data "files/".data none "date".data
      (constResp ⟨200, uuidBody⟩)).outcome
      = .value (.obj [("uuid".data, .str "abc".data)]) :=
  ⟨rfl, (C2_rest_status_dispatch conf₀ "GET".data "files/".data none "date".data
    ⟨200, uuidBody⟩ rfl).1 (.obj [("uuid".data, .str "abc".data)]) rfl (by rfl)⟩

/-- **C3**: the upload status dispatch. 200 parses (malformed JSON is an
`APIError` with the parse message); 400 and 404 raise
`InvalidRequestError`; every other non-200 status — including 204 and
403, which get no special handling here — raises a generic `APIError`
with the response body. -/
theorem C3_upload_status_dispatch (conf : Conf) (verb path : Lc)
    (udata : Option (List (Lc × Lc))) (files : List (Lc × Lc))
    (r : HttpResponse) (hp : startsSlash path = false) :
    (∀ j, r.status_code = 200 → loads r.content = .ok j →
      (uploading_request conf verb path udata files (constRespU r)).outcome
        = .value j)
  ∧ (∀ e, r.status_code = 200 → loads r.content = .error e →
      (uploading_request conf verb path udata files (constRespU r)).outcome
        = .raised (.APIError e))
  ∧ (r.status_code = 400 ∨ r.status_code = 404 →
      (uploading_request conf verb path udata files (constRespU r)).outcome
        = .raised (.InvalidRequestError r.content))
  ∧ (r.status_code = 204 →
      (uploading_request conf verb path udata files (constRespU r)).outcome
        = .raised (.APIError r.content))
  ∧ (r.status_code = 403 →
      (uploading_request conf verb path udata files (constRespU r)).outcome
        = .raised (.APIError r.content))
  ∧ (r.status_code ≠ 200 → r.status_code ≠ 400 → r.status_code ≠ 404 →
      (uploading_request conf verb path udata files (constRespU r)).outcome
        = .raised (.APIError r.content)) := by
  refine ⟨?_, ?_, ?_, ?_, ?_, ?_⟩
  · intro j hs hl
    simp [uploading_request, hp, constRespU, hs, hl]
  · intro e hs hl
    simp [uploading_request, hp, constRespU, hs, hl]
  · rintro (hs | hs) <;> simp [uploading_request, hp, constRespU, hs]
  · intro hs
    simp [uploading_request, hp, constRespU, hs]
  · intro hs
    simp [uploading_request, hp, constRespU, hs]
  · intro h1 h2 h3
    simp [uploading_request, hp, constRespU, h1, h2, h3]

/-- Witness for C3: status 204, which the REST side treats as empty
success, is a generic `APIError` on the upload side. -/
theorem C3_upload_status_dispatch_witness :
    startsSlash "base/".data = false
  ∧ (uploading_request conf₀ "POST".data "base/".data none []
      (constRespU ⟨204, "no content".data⟩)).outcome
      = .raised (.APIError "no content".data) :=
  ⟨rfl, (C3_upload_status_dispatch conf₀ "POST".data "base/".data none []
    ⟨204, "no content".data⟩ rfl).2.2.2.1 rfl⟩

/-! ## Dict lemmas for the upload form -/

theorem dictGet_cons (p : Lc × Lc) (rest : List (Lc × Lc)) (k : Lc) :
    dictGet (p :: rest) k = if p.1 = k then some p.2 else dictGet rest k := by
  by_cases h : p.1 = k <;> simp [dictGet, List.find?, h]

/-- The in-place-update branch of `dictSet` leaves other keys alone. -/
theorem dictGet_mapSet_ne (d : List (Lc × Lc)) (k k' v : Lc) (h : k ≠ k') :
    dictGet (d.map (fun p => if p.1 = k' then (k', v) else p)) k = dictGet d k := by
  induction d with
  | nil => rfl
  | cons p rest ih =>
    by_cases hp : p.1 = k'
    · rw [List.map_cons, if_pos hp, dictGet_cons, dictGet_cons]
      have hk : ¬ ((k', v).1 = k) := fun hh => h (hh.symm)
      rw [if_neg hk, if_neg (show ¬ (p.1 = k) from hp ▸ hk), ih]
    · rw [List.map_cons, if_neg hp, dictGet_cons, dictGet_cons]
      by_cases hk : p.1 = k
      · rw [if_pos hk, if_pos hk]
      · rw [if_neg hk, if_neg hk, ih]

/-- The append branch of `dictSet` leaves other keys alone. -/
theorem dictGet_appendSet_ne (d : List (Lc × Lc)) (k k' v : Lc) (h : k ≠ k') :
    dictGet (d ++ [(k', v)]) k = dictGet d k := by
  induction d with
  | nil =>
    show dictGet [(k', v)] k = none
    rw [dictGet_cons]
    exact if_neg (fun hh => h hh.symm)
  | cons p rest ih =>
    rw [List.cons_append, dictGet_cons, dictGet_cons]
    by_cases hk : p.1 = k
    · rw [if_pos hk, if_pos hk]
    · rw [if_neg hk, if_neg hk, ih]

/-- Setting one key leaves lookups of every other key unchanged. -/
theorem dictGet_dictSet_ne (d : List (Lc × Lc)) (k k' v : Lc) (h : k ≠ k') :
    dictGet (dictSet d k' v) k = dictGet d k := by
  unfold dictSet
  split_ifs with hmem
  · exact dictGet_mapSet_ne d k k' v h
  · exact dictGet_appendSet_ne d k k' v h

/-- Setting a key makes lookups of that key return the new value. -/
theorem dictGet_dictSet_self (d : List (Lc × Lc)) (k v : Lc) :
    dictGet (dictSet d k v) k = some v := by
  unfold dictSet
  split_ifs with hmem
  · induction d with
    | nil => simp at hmem
    | cons p rest ih =>
      by_cases hp : p.1 = k
      · rw [List.map_cons, if_pos hp, dictGet_cons, if_pos rfl]
      · rw [List.map_cons, if_neg hp, dictGet_cons, if_neg hp]
        simp only [List.any_cons, Bool.or_eq_true, decide_eq_true_eq] at hmem
        exact ih (by simpa using hmem.resolve_left hp)
  · induction d with
    | nil =>
      show dictGet [(k, v)] k = some v
      rw [dictGet_cons, if_pos rfl]
    | cons p rest ih =>
      simp only [List.any_cons, Bool.or_eq_true, decide_eq_true_eq, not_or] at hmem
      rw [List.cons_append, dictGet_cons, if_neg hmem.1]
      exact ih (by simpa using hmem.2)

/-- Entries at keys a filter rejects are unaffected by the update branch. -/
theorem filter_mapSet (d : List (Lc × Lc)) (k' v : Lc) (P : Lc × Lc → Bool)
    (hP : ∀ p : Lc × Lc, p.1 = k' → P p = false) :
    (d.map (fun p => if p.1 = k' then (k', v) else p)).filter P = d.filter P := by
  induction d with
  | nil => rfl
  | cons p rest ih =>
    rw [List.map_cons]
    by_cases hp : p.1 = k'
    · rw [if_pos hp, List.filter_cons, List.filter_cons,
        hP (k', v) rfl, hP p hp]
      simpa using ih
    · rw [if_neg hp, List.filter_cons, List.filter_cons]
      cases hPp : P p <;> simp [ih]

/-- Entries at keys a filter rejects are unaffected by the append branch. -/
theorem filter_appendSet (d : List (Lc × Lc)) (k' v : Lc) (P : Lc × Lc → Bool)
    (hP : ∀ p : Lc × Lc, p.1 = k' → P p = false) :
    (d ++ [(k', v)]).filter P = d.filter P := by
  rw [List.filter_append]
  have : List.filter P [(k', v)] = [] := by
    rw [List.filter_cons, hP (k', v) rfl]
    rfl
  rw [this, List.append_nil]

/-- `dictSet` does not disturb the subsequence of entries a key-based
filter keeps, when the filter rejects the written key. -/
theorem filter_dictSet (d : List (Lc × Lc)) (k' v : Lc) (P : Lc × Lc → Bool)
    (hP : ∀ p : Lc × Lc, p.1 = k' → P p = false) :
    (dictSet d k' v).filter P = d.filter P := by
  unfold dictSet
  split_ifs with hmem
  · exact filter_mapSet d k' v P hP
  · exact filter_appendSet d k' v P hP

/-- Below the assert, `uploading_request` always hands `requests.request`
the same request: resolved URL, redirects on, the upload TLS flag, the
mutated form and the caller's file parts — whatever the transport then
answers. -/
theorem uploading_request_sent (conf : Conf) (verb path : Lc)
    (udata : Option (List (Lc × Lc))) (files : List (Lc × Lc))
    (net : SentUpload → TransportResult) (hp : startsSlash path = false) :
    (uploading_request conf verb path udata files net).sent
      = some ⟨verb, urljoin conf.upload_base path, true, conf.verify_upload_ssl,
          uploadForm (udata.getD []) conf.pub_key, files⟩ := by
  unfold uploading_request
  rw [hp]
  simp only [Bool.false_eq_true, if_false]
  cases net _ with
  | exn m => rfl
  | resp r =>
    by_cases h200 : r.status_code = 200
    · simp only [h200, if_pos]
      cases loads r.content <;> rfl
    · by_cases h4 : r.status_code = 400 ∨ r.status_code = 404
      · simp only [h200, h4, if_false, if_pos, if_true]
      · simp only [h200, h4, if_false]

/-- The form dict after a call, whatever the transport answered. -/
theorem uploading_request_dataAfter (conf : Conf) (verb path : Lc)
    (udata : Option (List (Lc × Lc))) (files : List (Lc × Lc))
    (net : SentUpload → TransportResult) (hp : startsSlash path = false) :
    (uploading_request conf verb path udata files net).dataAfter
      = uploadForm (udata.getD []) conf.pub_key := by
  unfold uploading_request
  rw [hp]
  simp only [Bool.false_eq_true, if_false]
  cases net _ with
  | exn m => rfl
  | resp r =>
    by_cases h200 : r.status_code = 200
    · simp only [h200, if_pos]
      cases loads r.content <;> rfl
    · by_cases h4 : r.status_code = 400 ∨ r.status_code = 404
      · simp only [h200, h4, if_false, if_pos, if_true]
      · simp only [h200, h4, if_false]

/-- **C8**: the outgoing upload form is the caller's dict with exactly
the two public-key fields (`pub_key` and the legacy
`UPLOADCARE_PUB_KEY`) set to the configured public key; lookups of every
other key, and the relative order of all other entries, are unchanged,
and the caller's file-part dict is passed through as is. -/
theorem C8_upload_form_injection (conf : Conf) (verb path : Lc)
    (d : List (Lc × Lc)) (files : List (Lc × Lc))
    (net : SentUpload → TransportResult) (hp : startsSlash path = false) :
    (uploading_request conf verb path (some d) files net).sent
      = some ⟨verb, urljoin conf.upload_base path, true, conf.verify_upload_ssl,
          uploadForm d conf.pub_key, files⟩
  ∧ dictGet (uploadForm d conf.pub_key) "pub_key".data = some conf.pub_key
  ∧ dictGet (uploadForm d conf.pub_key) "UPLOADCARE_PUB_KEY".data
      = some conf.pub_key
  ∧ (∀ k, k ≠ "pub_key".data → k ≠ "UPLOADCARE_PUB_KEY".data →
      dictGet (uploadForm d conf.pub_key) k = dictGet d k)
  ∧ (uploadForm d conf.pub_key).filter
        (fun p => !(decide (p.1 = "pub_key".data)
          || decide (p.1 = "UPLOADCARE_PUB_KEY".data)))
      = d.filter (fun p => !(decide (p.1 = "pub_key".data)
          || decide (p.1 = "UPLOADCARE_PUB_KEY".data))) := by
  refine ⟨?_, ?_, ?_, ?_, ?_⟩
  · simpa using uploading_request_sent conf verb path (some d) files net hp
  · unfold uploadForm
    rw [dictGet_dictSet_ne _ _ _ _ (by decide), dictGet_dictSet_self]
  · unfold uploadForm
    rw [dictGet_dictSet_self]
  · intro k h1 h2
    unfold uploadForm
    rw [dictGet_dictSet_ne _ _ _ _ h2, dictGet_dictSet_ne _ _ _ _ h1]
  · unfold uploadForm
    rw [filter_dictSet _ _ _ _ (fun p hp2 => by rw [hp2]; decide),
      filter_dictSet _ _ _ _ (fun p hp2 => by rw [hp2]; decide)]

/-- Witness for C8: a caller dict that already held `pub_key` is
overwritten at that key and untouched at its other key. -/
theorem C8_upload_form_injection_witness :
    startsSlash "base/".data = false
  ∧ dictGet (uploadForm [("pub_key".data, "mine".data), ("other".data, "x".data)]
      conf₀.pub_key) "pub_key".data = some conf₀.pub_key
  ∧ dictGet (uploadForm [("pub_key".data, "mine".data), ("other".data, "x".data)]
      conf₀.pub_key) "other".data = some "x".data :=
  ⟨rfl,
   (C8_upload_form_injection conf₀ "POST".data "base/".data
      [("pub_key".data, "mine".data), ("other".data, "x".data)] []
      (constRespU ⟨200, "[]".data⟩) rfl).2.1,
   by
     rw [(C8_upload_form_injection conf₀ "POST".data "base/".data
        [("pub_key".data, "mine".data), ("other".data, "x".data)] []
        (constRespU ⟨200, "[]".data⟩) rfl).2.2.2.1 "other".data
        (by decide) (by decide)]
     rfl⟩

/-- **C10**: by the time `uploading_request` fails — whether with a
connection error before any response or with a status-code error — the
caller's dict has already been mutated in place: both public-key entries
are present, overwriting whatever the caller had stored under those keys,
and they are not removed on failure, so the dict is not restored to its
pre-call state. -/
theorem C10_mutation_persists_on_failure (conf : Conf) (verb path : Lc)
    (d : List (Lc × Lc)) (files : List (Lc × Lc)) (t : TransportResult)
    (hp : startsSlash path = false) :
    (uploading_request conf verb path (some d) files (fun _ => t)).dataAfter
      = uploadForm d conf.pub_key
  ∧ dictGet (uploading_request conf verb path (some d) files
        (fun _ => t)).dataAfter "pub_key".data = some conf.pub_key
  ∧ dictGet (uploading_request conf verb path (some d) files
        (fun _ => t)).dataAfter "UPLOADCARE_PUB_KEY".data = some conf.pub_key
  ∧ (∀ m, t = .exn m →
      (uploading_request conf verb path (some d) files (fun _ => t)).outcome
        = .raised (.APIConnectionError m)) := by
  have hda := uploading_request_dataAfter conf verb path (some d) files
    (fun _ => t) hp
  simp only [Option.getD_some] at hda
  refine ⟨hda, ?_, ?_, ?_⟩
  · rw [hda]
    unfold uploadForm
    rw [dictGet_dictSet_ne _ _ _ _ (by decide), dictGet_dictSet_self]
  · rw [hda]
    unfold uploadForm
    rw [dictGet_dictSet_self]
  · rintro m rfl
    simp [uploading_request, hp]

/-- Witness for C10: a refused connection still leaves both key entries
in the caller's dict, the caller's own `pub_key` value overwritten. -/
theorem C10_mutation_persists_on_failure_witness :
    startsSlash "base/".data = false
  ∧ (uploading_request conf₀ "POST".data "base/".data
      (some [("pub_key".data, "mine".data)]) [] (fun _ => .exn "refused".data)).dataAfter
      = uploadForm [("pub_key".data, "mine".data)] conf₀.pub_key
  ∧ dictGet (uploading_request conf₀ "POST".data "base/".data
      (some [("pub_key".data, "mine".data)]) []
      (fun _ => .exn "refused".data)).dataAfter "pub_key".data
      = some conf₀.pub_key
  ∧ (uploading_request conf₀ "POST".data "base/".data
      (some [("pub_key".data, "mine".data)]) []
      (fun _ => .exn "refused".data)).outcome
      = .raised (.APIConnectionError "refused".data) :=
  ⟨rfl,
   (C10_mutation_persists_on_failure conf₀ "POST".data "base/".data
     [("pub_key".data, "mine".data)] [] (.exn "refused".data) rfl).1,
   (C10_mutation_persists_on_failure conf₀ "POST".data "base/".data
     [("pub_key".data, "mine".data)] [] (.exn "refused".data) rfl).2.1,
   (C10_mutation_persists_on_failure conf₀ "POST".data "base/".data
     [("pub_key".data, "mine".data)] [] (.exn "refused".data) rfl).2.2.2
     "refused".data rfl⟩

/-! ## C4: error payloads -/

/-- The diagnostic payload carried by an exception from
`pyuploadcare.exceptions` (its constructor argument). -/
def PyErr.payload : PyErr → Lc
  | .APIConnectionError p => p
  | .AuthenticationError p => p
  | .InvalidRequestError p => p
  | .APIError p => p

/-- Counterexample to C4: on a 200 response with the non-JSON body
`oops`, the raised `APIError` carries the parse error message, which is
neither the raw response body nor any transport error text (no transport
error occurred). -/
theorem C4_parse_error_payload_counterexample :
    (rest_request conf₀ "GET".data "files/".data none "date".data
      (constResp ⟨200, "oops".data⟩)).outcome
      = .raised (.APIError "Expecting value: line 1 column 1 (char 0)".data)
  ∧ "Expecting value: line 1 column 1 (char 0)".data ≠ "oops".data :=
  ⟨rfl, by decide⟩

/-- **C4** (amended): every raised error carries its diagnostic payload —
the transport error text for `APIConnectionError`, the raw response body
for the status-code errors of both functions, and, for the `APIError`
raised when a 200 response fails to parse as JSON, the parse error
message rather than the raw body. -/
theorem C4_error_payloads (conf : Conf) (verb path : Lc)
    (data : Option JsonValue) (date : Lc) (udata : Option (List (Lc × Lc)))
    (files : List (Lc × Lc)) (hp : startsSlash path = false) :
    (∀ m, (rest_request conf verb path data date (fun _ => .exn m)).outcome
        = .raised (.APIConnectionError m))
  ∧ (∀ m, (uploading_request conf verb path udata files
        (fun _ => .exn m)).outcome = .raised (.APIConnectionError m))
  ∧ (∀ r : HttpResponse, r.status_code ≠ 200 → r.status_code ≠ 204 →
      ∃ e : PyErr, (rest_request conf verb path data date (constResp r)).outcome
          = .raised e ∧ e.payload = r.content)
  ∧ (∀ r : HttpResponse, r.status_code ≠ 200 →
      ∃ e : PyErr, (uploading_request conf verb path udata files
          (constRespU r)).outcome = .raised e ∧ e.payload = r.content)
  ∧ (∀ (r : HttpResponse) (e : Lc), r.status_code = 200 →
      loads r.content = .error e →
      (rest_request conf verb path data date (constResp r)).outcome
        = .raised (.APIError e)
      ∧ (uploading_request conf verb path udata files (constRespU r)).outcome
        = .raised (.APIError e)) := by
  refine ⟨?_, ?_, ?_, ?_, ?_⟩
  · intro m
    simp [rest_request, hp]
  · intro m
    simp [uploading_request, hp]
  · intro r h200 h204
    by_cases h403 : r.status_code = 403
    · exact ⟨.AuthenticationError r.content,
        by simp [rest_request, hp, constResp, h200, h204, h403], rfl⟩
    · by_cases h400 : r.status_code = 400
      · exact ⟨.InvalidRequestError r.content,
          by simp [rest_request, hp, constResp, h200, h204, h403, h400], rfl⟩
      · by_cases h404 : r.status_code = 404
        · exact ⟨.InvalidRequestError r.content,
            by simp [rest_request, hp, constResp, h200, h204, h403, h404], rfl⟩
        · exact ⟨.APIError r.content,
            by simp [rest_request, hp, constResp, h200, h204, h403, h400, h404],
            rfl⟩
  · intro r h200
    by_cases h400 : r.status_code = 400
    · exact ⟨.InvalidRequestError r.content,
        by simp [uploading_request, hp, constRespU, h200, h400], rfl⟩
    · by_cases h404 : r.status_code = 404
      · exact ⟨.InvalidRequestError r.content,
          by simp [uploading_request, hp, constRespU, h200, h404], rfl⟩
      · exact ⟨.APIError r.content,
          by simp [uploading_request, hp, constRespU, h200, h400, h404], rfl⟩
  · intro r e h200 hl
    exact ⟨by simp [rest_request, hp, constResp, h200, hl],
      by simp [uploading_request, hp, constRespU, h200, hl]⟩

/-- Witness for C4 (amended): a refused connection propagates its text,
and a 500 response propagates its body. -/
theorem C4_error_payloads_witness :
    startsSlash "files/".data = false
  ∧ (rest_request conf₀ "GET".data "files/".data none "date".data
      (fun _ => .exn "refused".data)).outcome
      = .raised (.APIConnectionError "refused".data)
  ∧ (∃ e : PyErr, (rest_request conf₀ "GET".data "files/".data none "date".data
      (constResp ⟨500, "boom".data⟩)).outcome = .raised e
      ∧ e.payload = "boom".data) :=
  ⟨rfl,
   (C4_error_payloads conf₀ "GET".data "files/".data none "date".data none []
     rfl).1 "refused".data,
   (C4_error_payloads conf₀ "GET".data "files/".data none "date".data none []
     rfl).2.2.1 ⟨500, "boom".data⟩ (by decide) (by decide)⟩

/-! ## C6: determinism and sensitivity of the signature -/

theorem bytesToHex_cons (b : Nat) (rest : Bytes) :
    bytesToHex (b :: rest) = hexByte b ++ bytesToHex rest := rfl

theorem bytesToHex_length (bs : Bytes) :
    (bytesToHex bs).length = 2 * bs.length := by
  induction bs with
  | nil => rfl
  | cons b rest ih =>
    rw [bytesToHex_cons, List.length_append, ih,
      show (hexByte b).length = 2 from rfl]
    simp only [List.length_cons]
    omega

/-- The MD5 digest is 16 bytes, whatever the input. -/
theorem md5_length (bs : Bytes) : (md5 bs).length = 16 := by
  unfold md5
  rcases hfold : (blocks64 (md5Pad bs)).foldl md5Block
      (1732584193, 4023233417, 2562383102, 271733878) with ⟨a, b, c, d⟩
  simp [bytesLE4]

/-- The MD5 hex digest is 32 characters, whatever the input. -/
theorem md5Hex_length (bs : Bytes) : (md5Hex bs).length = 32 := by
  rw [md5Hex, bytesToHex_length, md5_length]

/-- `conf₀` with no secret configured. -/
def confUnset : Conf := { conf₀ with secret := none }

/-- `conf₀` with the empty string as secret. -/
def confEmpty : Conf := { conf₀ with secret := some [] }

/-- Counterexample to C6's sensitivity: two configurations differing in
exactly the secret — unset versus empty string — produce identical
signatures for the same request, because both encode to the empty HMAC
key. -/
theorem C6_secret_sensitivity_counterexample :
    confUnset.secret ≠ confEmpty.secret
  ∧ confUnset.pub_key = confEmpty.pub_key
  ∧ confUnset.api_base = confEmpty.api_base
  ∧ restSign confUnset "GET".data "files/?limit=10".data none "date".data
      = restSign confEmpty "GET".data "files/?limit=10".data none "date".data := by
  refine ⟨by decide, rfl, rfl, ?_⟩
  unfold restSign
  rfl

/-- **C6** (amended): signing is deterministic — it depends only on the
secret's encoded key bytes, the REST base and the request inputs; the
unset and the empty-string secret share the empty key (so universal
secret-sensitivity fails); differing verbs or paths give differing
canonical sign strings; and two bodies give differing sign strings
exactly when their MD5 hex digests differ. -/
theorem C6_determinism_and_sensitivity :
    (∀ (c c' : Conf) (verb path : Lc) (data : Option JsonValue) (date : Lc),
      secretBytes c.secret = secretBytes c'.secret → c.api_base = c'.api_base →
      restSign c verb path data date = restSign c' verb path data date)
  ∧ secretBytes none = secretBytes (some [])
  ∧ (∀ v v' m ct d p : Lc, v ≠ v' →
      signString v m ct d p ≠ signString v' m ct d p)
  ∧ (∀ v m ct d p p' : Lc, p ≠ p' →
      signString v m ct d p ≠ signString v m ct d p')
  ∧ (∀ (v ct d p : Lc) (b b' : Bytes),
      signString v (md5Hex b) ct d p = signString v (md5Hex b') ct d p
        ↔ md5Hex b = md5Hex b') := by
  refine ⟨?_, rfl, ?_, ?_, ?_⟩
  · intro c c' verb path data date h1 h2
    unfold restSign
    rw [h1, h2]
  · intro v v' m ct d p hne heq
    apply hne
    rw [signString_eq, signString_eq] at heq
    exact List.append_left_injective _ heq
  · intro v m ct d p p' hne heq
    apply hne
    rw [signString_eq, signString_eq] at heq
    have h1 := List.append_right_injective v heq
    simp only [List.cons.injEq, true_and] at h1
    have h2 := List.append_right_injective m h1
    simp only [List.cons.injEq, true_and] at h2
    have h3 := List.append_right_injective ct h2
    simp only [List.cons.injEq, true_and] at h3
    have h4 := List.append_right_injective d h3
    simp only [List.cons.injEq, true_and] at h4
    exact h4
  · intro v ct d p b b'
    constructor
    · intro heq
      rw [signString_eq, signString_eq] at heq
      have h1 := List.append_right_injective v heq
      simp only [List.cons.injEq, true_and] at h1
      exact (List.append_inj h1 ((md5Hex_length b).trans (md5Hex_length b').symm)).1
    · intro h
      rw [h]

/-- Witness for C6 (amended): determinism at a concrete request, and
verb-sensitivity of the sign string between `GET` and `POST`. -/
theorem C6_determinism_and_sensitivity_witness :
    restSign conf₀ "GET".data "files/".data none "date".data
      = restSign conf₀ "GET".data "files/".data none "date".data
  ∧ "GET".data ≠ "POST".data
  ∧ signString "GET".data "m5".data "ct".data "d".data "p".data
      ≠ signString "POST".data "m5".data "ct".data "d".data "p".data :=
  ⟨C6_determinism_and_sensitivity.1 conf₀ conf₀ "GET".data "files/".data none
    "date".data rfl rfl,
   by decide,
   C6_determinism_and_sensitivity.2.2.1 "GET".data "POST".data "m5".data
     "ct".data "d".data "p".data (by decide)⟩

/-! ## C9: the canonicalized signed path

Lemmas tracing a relative path through `urljoin` against the default REST
base `https://api.uploadcare.com/` and back through `urlsplit`. -/

/-- Whether the scheme-detection stage of `urlsplit` would find a scheme
prefix in the URL. -/
def hasSchemePrefix (url : Lc) : Bool :=
  match splitOnce ':' url with
  | some (pre, _) => decide (pre ≠ [] ∧ pre.all isSchemeChar)
  | none => false

theorem splitOnce_of_not_mem {c : Char} {l : Lc} (h : c ∉ l) :
    splitOnce c l = none := by
  induction l with
  | nil => rfl
  | cons a rest ih =>
    rw [splitOnce, if_neg (fun hh : a = c => h (hh ▸ List.mem_cons_self a rest)),
      ih (fun hm => h (List.mem_cons_of_mem a hm))]
    rfl

theorem splitOnce_append {c : Char} {a : Lc} (b : Lc) (h : c ∉ a) :
    splitOnce c (a ++ c :: b) = some (a, b) := by
  induction a with
  | nil => simp [splitOnce]
  | cons x rest ih =>
    have hx : ¬ (x = c) := fun hh => h (hh ▸ List.mem_cons_self x rest)
    rw [List.cons_append, splitOnce, if_neg hx,
      ih (fun hm => h (List.mem_cons_of_mem x hm))]
    rfl

/-- Every split either finds no occurrence or decomposes the list at the
first occurrence. -/
theorem splitOnce_cases (c : Char) (l : Lc) :
    (splitOnce c l = none ∧ c ∉ l)
  ∨ ∃ a b, splitOnce c l = some (a, b) ∧ l = a ++ c :: b ∧ c ∉ a := by
  induction l with
  | nil => exact Or.inl ⟨rfl, by simp⟩
  | cons x rest ih =>
    by_cases hx : x = c
    · subst hx
      exact Or.inr ⟨[], rest, by simp [splitOnce], rfl, by simp⟩
    · rcases ih with ⟨h1, h2⟩ | ⟨a, b, h1, h2, h3⟩
      · refine Or.inl ⟨?_, ?_⟩
        · rw [splitOnce, if_neg hx, h1]
          rfl
        · intro hm
          rcases List.mem_cons.mp hm with hm | hm
          · exact hx hm.symm
          · exact h2 hm
      · refine Or.inr ⟨x :: a, b, ?_, ?_, ?_⟩
        · rw [splitOnce, if_neg hx, h1]
          rfl
        · rw [List.cons_append, ← h2]
        · intro hm
          rcases List.mem_cons.mp hm with hm | hm
          · exact hx hm.symm
          · exact h3 hm

theorem takeWhile_append_all {P : Char → Bool} (a b : Lc)
    (ha : ∀ x ∈ a, P x = true) (hb : ∀ c r, b = c :: r → P c = false) :
    (a ++ b).takeWhile P = a := by
  induction a with
  | nil =>
    cases b with
    | nil => rfl
    | cons c r => simp [List.takeWhile_cons, hb c r rfl]
  | cons x xs ih =>
    simp [List.takeWhile_cons, ha x (List.mem_cons_self x xs),
      ih (fun y hy => ha y (List.mem_cons_of_mem x hy))]

theorem dropWhile_append_all {P : Char → Bool} (a b : Lc)
    (ha : ∀ x ∈ a, P x = true) (hb : ∀ c r, b = c :: r → P c = false) :
    (a ++ b).dropWhile P = b := by
  induction a with
  | nil =>
    cases b with
    | nil => rfl
    | cons c r => simp [List.dropWhile_cons, hb c r rfl]
  | cons x xs ih =>
    simp [List.dropWhile_cons, ha x (List.mem_cons_self x xs),
      ih (fun y hy => ha y (List.mem_cons_of_mem x hy))]

/-- `_splitnetloc` on a delimiter-free head followed by a delimiter-headed
tail. -/
theorem splitnetloc_append (a b : Lc) (ha : ∀ x ∈ a, isNetlocDelim x = false)
    (hb : ∀ c r, b = c :: r → isNetlocDelim c = true) :
    splitnetloc (a ++ b) = (a, b) := by
  unfold splitnetloc
  rw [takeWhile_append_all a b (fun x hx => by simp [ha x hx])
      (fun c r hcr => by simp [hb c r hcr]),
    dropWhile_append_all a b (fun x hx => by simp [ha x hx])
      (fun c r hcr => by simp [hb c r hcr])]

theorem splitScheme_of_no_prefix (url ds : Lc) (h : hasSchemePrefix url = false) :
    splitScheme url ds = (ds, url) := by
  unfold splitScheme
  unfold hasSchemePrefix at h
  rcases hcolon : splitOnce ':' url with _ | ⟨pre, rest⟩
  · rfl
  · exact if_neg (of_decide_eq_false (by rw [hcolon] at h; exact h))

/-- The scheme stage strips a concrete `https:` prefix. -/
theorem splitScheme_https (rest ds : Lc) :
    splitScheme ("https".data ++ ':' :: rest) ds = ("https".data, rest) := by
  unfold splitScheme
  rw [splitOnce_append rest (by decide)]
  exact (if_pos ⟨by decide, by decide⟩).trans rfl

theorem splitNetlocStage_of_not_slash (url : Lc) (h : startsSlash url = false) :
    splitNetlocStage url = ([], url) := by
  unfold splitNetlocStage
  split
  · simp [startsSlash] at h
  · rfl

theorem splitFragment_of_not_mem (url : Lc) (h : '#' ∉ url) :
    splitFragment url = (url, []) := by
  unfold splitFragment
  rw [splitOnce_of_not_mem h]

theorem splitFragment_append (a b : Lc) (h : '#' ∉ a) :
    splitFragment (a ++ '#' :: b) = (a, b) := by
  unfold splitFragment
  rw [splitOnce_append b h]

theorem splitQuery_of_not_mem (url : Lc) (h : '?' ∉ url) :
    splitQuery url = (url, []) := by
  unfold splitQuery
  rw [splitOnce_of_not_mem h]

theorem splitQuery_append (a b : Lc) (h : '?' ∉ a) :
    splitQuery (a ++ '?' :: b) = (a, b) := by
  unfold splitQuery
  rw [splitOnce_append b h]

theorem head?_append_left (a b : Lc) (h : a ≠ []) : (a ++ b).head? = a.head? := by
  cases a with
  | nil => exact absurd rfl h
  | cons x xs => rfl

/-- `startsSlash` reads the head. -/
theorem startsSlash_head? (l : Lc) : startsSlash l = true ↔ l.head? = some '/' := by
  cases l with
  | nil => simp [startsSlash]
  | cons x xs => simp [startsSlash, List.take]

/-- `urlsplit` as a chain of stage projections. -/
theorem urlsplitD_eq (url ds : Lc) :
    urlsplitD url ds
      = ⟨(splitScheme url ds).1,
         (splitNetlocStage (splitScheme url ds).2).1,
         (splitQuery (splitFragment
           (splitNetlocStage (splitScheme url ds).2).2).1).1,
         (splitQuery (splitFragment
           (splitNetlocStage (splitScheme url ds).2).2).1).2,
         (splitFragment (splitNetlocStage (splitScheme url ds).2).2).2⟩ := rfl

/-- Splitting a relative reference (no scheme prefix, no leading slash)
with a default scheme: the scheme is the default, there is no netloc, and
path, query, fragment come from the `#` and `?` splits of the input. -/
theorem urlsplitD_relative (p ds : Lc) (hsch : hasSchemePrefix p = false)
    (hs : startsSlash p = false) :
    ∃ pp q f, urlsplitD p ds = ⟨ds, [], pp, q, f⟩
      ∧ '#' ∉ pp ∧ '?' ∉ pp ∧ '#' ∉ q
      ∧ (pp = [] ∨ pp.head? = p.head?) := by
  have h1 : splitScheme p ds = (ds, p) := splitScheme_of_no_prefix p ds hsch
  have h2 : splitNetlocStage p = ([], p) := splitNetlocStage_of_not_slash p hs
  rcases splitOnce_cases '#' p with ⟨hno, hmem⟩ | ⟨a, b, hsp, hdecomp, hnotin⟩
  · have h3 : splitFragment p = (p, []) := by unfold splitFragment; rw [hno]
    rcases splitOnce_cases '?' p with ⟨qno, qmem⟩ | ⟨a2, b2, qsp, qdecomp, qnotin⟩
    · have h4 : splitQuery p = (p, []) := by unfold splitQuery; rw [qno]
      refine ⟨p, [], [], ?_, hmem, qmem, by simp, Or.inr rfl⟩
      rw [urlsplitD_eq, h1]
      dsimp only
      rw [h2]
      dsimp only
      rw [h3]
      dsimp only
      rw [h4]
    · have h4 : splitQuery p = (a2, b2) := by unfold splitQuery; rw [qsp]
      have hb2 : '#' ∉ b2 := fun hm => hmem (by
        rw [qdecomp]
        exact List.mem_append_right a2 (List.mem_cons_of_mem _ hm))
      have ha2 : '#' ∉ a2 := fun hm => hmem (by
        rw [qdecomp]
        exact List.mem_append_left _ hm)
      refine ⟨a2, b2, [], ?_, ha2, qnotin, hb2, ?_⟩
      · rw [urlsplitD_eq, h1]
        dsimp only
        rw [h2]
        dsimp only
        rw [h3]
        dsimp only
        rw [h4]
      · cases ha2e : a2 with
        | nil => exact Or.inl rfl
        | cons x xs =>
          right
          rw [qdecomp, ← ha2e, head?_append_left _ _ (by rw [ha2e]; simp)]
  · have h3 : splitFragment p = (a, b) := by unfold splitFragment; rw [hsp]
    rcases splitOnce_cases '?' a with ⟨qno, qmem⟩ | ⟨a2, b2, qsp, qdecomp, qnotin⟩
    · have h4 : splitQuery a = (a, []) := by unfold splitQuery; rw [qno]
      refine ⟨a, [], b, ?_, hnotin, qmem, by simp, ?_⟩
      · rw [urlsplitD_eq, h1]
        dsimp only
        rw [h2]
        dsimp only
        rw [h3]
        dsimp only
        rw [h4]
      · cases hae : a with
        | nil => exact Or.inl rfl
        | cons x xs =>
          right
          rw [hdecomp, ← hae, head?_append_left _ _ (by rw [hae]; simp)]
    · have h4 : splitQuery a = (a2, b2) := by unfold splitQuery; rw [qsp]
      have ha2 : '#' ∉ a2 := fun hm => hnotin (by
        rw [qdecomp]
        exact List.mem_append_left _ hm)
      have hb2 : '#' ∉ b2 := fun hm => hnotin (by
        rw [qdecomp]
        exact List.mem_append_right a2 (List.mem_cons_of_mem _ hm))
      refine ⟨a2, b2, b, ?_, ha2, qnotin, hb2, ?_⟩
      · rw [urlsplitD_eq, h1]
        dsimp only
        rw [h2]
        dsimp only
        rw [h3]
        dsimp only
        rw [h4]
      · cases ha2e : a2 with
        | nil => exact Or.inl rfl
        | cons x xs =>
          right
          rw [hdecomp, qdecomp, ← ha2e,
            List.append_assoc, head?_append_left _ _ (by rw [ha2e]; simp)]

/-- Split at the last occurrence: `none` when absent, else the
decomposition with an occurrence-free tail. -/
theorem splitLast_spec (c : Char) (l : Lc) :
    (splitLast c l = none ∧ c ∉ l)
  ∨ ∃ a b, splitLast c l = some (a, b) ∧ l = a ++ c :: b ∧ c ∉ b := by
  unfold splitLast
  rcases splitOnce_cases c l.reverse with ⟨h1, h2⟩ | ⟨a, b, h1, h2, h3⟩
  · left
    rw [h1]
    exact ⟨rfl, fun hm => h2 (List.mem_reverse.mpr hm)⟩
  · right
    refine ⟨b.reverse, a.reverse, ?_, ?_, ?_⟩
    · rw [h1]
      rfl
    · have := congrArg List.reverse h2
      rw [List.reverse_reverse] at this
      rw [this]
      simp
    · intro hm
      exact h3 (List.mem_reverse.mp hm)

/-- What `_splitparams` returns: both halves draw their characters from
the input, and the path half keeps the input's head (or is empty). -/
theorem splitparams_spec (u : Lc) :
    (∀ x ∈ (splitparams u).1, x ∈ u) ∧ (∀ x ∈ (splitparams u).2, x ∈ u)
      ∧ ((splitparams u).1 = [] ∨ (splitparams u).1.head? = u.head?) := by
  unfold splitparams
  rcases splitLast_spec '/' u with ⟨h1, h2⟩ | ⟨pre, lastSeg, h1, h2, h3⟩
  · rw [h1]
    dsimp only
    rcases splitOnce_cases ';' u with ⟨q1, q2⟩ | ⟨a, b, q1, q2, q3⟩
    · rw [q1]
      dsimp only
      exact ⟨fun x hx => hx, fun x hx => (List.not_mem_nil x hx).elim, Or.inr rfl⟩
    · rw [q1]
      dsimp only
      refine ⟨?_, ?_, ?_⟩
      · intro x hx
        rw [q2]
        exact List.mem_append_left _ hx
      · intro x hx
        rw [q2]
        exact List.mem_append_right _ (List.mem_cons_of_mem _ hx)
      · cases hae : a with
        | nil => exact Or.inl rfl
        | cons y ys =>
          right
          rw [q2, ← hae, head?_append_left _ _ (by rw [hae]; simp)]
  · rw [h1]
    dsimp only
    rcases splitOnce_cases ';' lastSeg with ⟨q1, q2⟩ | ⟨a, b, q1, q2, q3⟩
    · rw [q1]
      dsimp only
      exact ⟨fun x hx => hx, fun x hx => (List.not_mem_nil x hx).elim, Or.inr rfl⟩
    · rw [q1]
      dsimp only
      refine ⟨?_, ?_, ?_⟩
      · intro x hx
        rw [h2]
        rcases List.mem_append.mp hx with hx | hx
        · exact List.mem_append_left _ hx
        · rcases List.mem_cons.mp hx with rfl | hx
          · exact List.mem_append_right _ (List.mem_cons_self _ _)
          · refine List.mem_append_right _ (List.mem_cons_of_mem _ ?_)
            rw [q2]
            exact List.mem_append_left _ hx
      · intro x hx
        rw [h2]
        refine List.mem_append_right _ (List.mem_cons_of_mem _ ?_)
        rw [q2]
        exact List.mem_append_right _ (List.mem_cons_of_mem _ hx)
      · right
        rw [h2]
        cases hpre : pre with
        | nil => rfl
        | cons y ys =>
          rw [← hpre, head?_append_left _ _ (by rw [hpre]; simp),
            head?_append_left _ _ (by rw [hpre]; simp)]

/-- Parsing a relative reference with the `https` default: scheme
`https`, no netloc, and path/params/query/fragment all drawing from the
input, the path not beginning with `/`. -/
theorem urlparseD_relative (p : Lc) (hsch : hasSchemePrefix p = false)
    (hs : startsSlash p = false) :
    ∃ pth prm q f, urlparseD p "https".data
        = ⟨"https".data, [], pth, prm, q, f⟩
      ∧ '#' ∉ pth ∧ '?' ∉ pth ∧ '#' ∉ prm ∧ '?' ∉ prm ∧ '#' ∉ q
      ∧ startsSlash pth = false := by
  obtain ⟨pp, q, f, hsplit, hpph, hppq, hqh, hhead⟩ :=
    urlsplitD_relative p "https".data hsch hs
  have hppSlash : startsSlash pp = false := by
    rcases hhead with rfl | hhead
    · rfl
    · rcases hb : startsSlash pp with _ | _
      · rfl
      · exfalso
        have := (startsSlash_head? pp).mp hb
        rw [this] at hhead
        have := (startsSlash_head? p).mpr hhead.symm
        rw [hs] at this
        cases this
  unfold urlparseD
  rw [hsplit]
  dsimp only
  by_cases hsemi : ';' ∈ pp
  · rw [if_pos ⟨by decide, hsemi⟩]
    obtain ⟨hc1, hc2, hc3⟩ := splitparams_spec pp
    rcases hsp : splitparams pp with ⟨pth, prm⟩
    rw [hsp] at hc1 hc2 hc3
    dsimp only at hc1 hc2 hc3 ⊢
    refine ⟨pth, prm, q, f, rfl, fun hm => hpph (hc1 _ hm),
      fun hm => hppq (hc1 _ hm), fun hm => hpph (hc2 _ hm),
      fun hm => hppq (hc2 _ hm), hqh, ?_⟩
    rcases hc3 with rfl | hc3
    · rfl
    · rcases hb : startsSlash pth with _ | _
      · rfl
      · exfalso
        have := (startsSlash_head? pth).mp hb
        rw [this] at hc3
        have := (startsSlash_head? pp).mpr hc3.symm
        rw [hppSlash] at this
        cases this
  · rw [if_neg (fun hcon => hsemi hcon.2)]
    exact ⟨pp, [], q, f, rfl, hpph, hppq, by simp, by simp, hqh, hppSlash⟩

/-- `str.split` never returns an empty list. -/
theorem splitChar_ne_nil (c : Char) (l : Lc) : splitChar c l ≠ [] := by
  induction l with
  | nil => simp [splitChar]
  | cons a rest ih =>
    unfold splitChar
    split_ifs with h
    · simp
    · rcases h2 : splitChar c rest with _ | ⟨s, ss⟩
      · exact absurd h2 ih
      · simp

/-- Every piece of `str.split` draws its characters from the input. -/
theorem splitChar_chars (c : Char) (l : Lc) :
    ∀ s ∈ splitChar c l, ∀ x ∈ s, x ∈ l := by
  induction l with
  | nil =>
    intro s hs x hx
    simp [splitChar] at hs
    subst hs
    cases hx
  | cons a rest ih =>
    intro s hs x hx
    unfold splitChar at hs
    split_ifs at hs with h
    · rcases List.mem_cons.mp hs with rfl | hs
      · cases hx
      · exact List.mem_cons_of_mem a (ih s hs x hx)
    · rcases h2 : splitChar c rest with _ | ⟨t, ts⟩
      · exact absurd h2 (splitChar_ne_nil c rest)
      · rw [h2] at hs
        rcases List.mem_cons.mp hs with rfl | hs
        · rcases List.mem_cons.mp hx with rfl | hx
          · exact List.mem_cons_self x rest
          · exact List.mem_cons_of_mem a
              (ih t (by rw [h2]; exact List.mem_cons_self t ts) x hx)
        · exact List.mem_cons_of_mem a
            (ih s (by rw [h2]; exact List.mem_cons_of_mem t hs) x hx)

/-- The resolution loop only ever holds input segments or earlier
accumulator entries. -/
theorem resolveSegs_mem (segs : List Lc) :
    ∀ acc, ∀ s ∈ resolveSegs acc segs, s ∈ acc ∨ s ∈ segs := by
  induction segs with
  | nil => intro acc s hs; exact Or.inl hs
  | cons t rest ih =>
    intro acc s hs
    unfold resolveSegs at hs
    split_ifs at hs with h1 h2
    · rcases ih _ s hs with h | h
      · exact Or.inl (List.dropLast_subset _ h)
      · exact Or.inr (List.mem_cons_of_mem t h)
    · rcases ih _ s hs with h | h
      · exact Or.inl h
      · exact Or.inr (List.mem_cons_of_mem t h)
    · rcases ih _ s hs with h | h
      · rcases List.mem_append.mp h with h | h
        · exact Or.inl h
        · rcases List.mem_cons.mp h with rfl | h
          · exact Or.inr (List.mem_cons_self s rest)
          · cases h
      · exact Or.inr (List.mem_cons_of_mem t h)

theorem getLastD_cons_mem (b : Lc) (rest : List Lc) (d : Lc) :
    (b :: rest).getLastD d ∈ b :: rest := by
  induction rest generalizing b with
  | nil => simp [List.getLastD]
  | cons c cs ih =>
    rw [List.getLastD_cons]
    exact List.mem_cons_of_mem b (ih c)

/-- The middle filter keeps a subset of the segments. -/
theorem filterMiddle_mem : ∀ (l : List Lc), ∀ s ∈ filterMiddle l, s ∈ l
  | [] => by intro s hs; cases hs
  | [a] => by intro s hs; exact hs
  | a :: b :: rest => by
    intro s hs
    unfold filterMiddle at hs
    rcases List.mem_cons.mp hs with rfl | hs
    · exact List.mem_cons_self s _
    · rcases List.mem_append.mp hs with hs | hs
      · exact List.mem_cons_of_mem a
          (List.dropLast_subset _ (List.mem_of_mem_filter hs))
      · rcases List.mem_cons.mp hs with rfl | hs
        · exact List.mem_cons_of_mem a (getLastD_cons_mem b rest [])
        · cases hs

theorem mem_intersperse {s sep : Lc} : ∀ {xs : List Lc},
    s ∈ xs.intersperse sep → s = sep ∨ s ∈ xs := by
  intro xs
  induction xs with
  | nil => intro h; cases h
  | cons a rest ih =>
    intro h
    cases rest with
    | nil =>
      rw [List.intersperse_singleton] at h
      exact Or.inr h
    | cons b bs =>
      rw [List.intersperse_cons₂] at h
      rcases List.mem_cons.mp h with rfl | h
      · exact Or.inr (List.mem_cons_self s _)
      · rcases List.mem_cons.mp h with rfl | h
        · exact Or.inl rfl
        · rcases ih h with h | h
          · exact Or.inl h
          · exact Or.inr (List.mem_cons_of_mem a h)

/-- A character of a `/`-join is the separator or comes from a piece. -/
theorem intercalate_chars (pieces : List Lc) :
    ∀ x ∈ List.intercalate ['/'] pieces, x = '/' ∨ ∃ s ∈ pieces, x ∈ s := by
  intro x hx
  unfold List.intercalate at hx
  obtain ⟨s, hs, hxs⟩ := List.mem_flatten.mp hx
  rcases mem_intersperse hs with rfl | hs
  · rcases List.mem_cons.mp hxs with rfl | hxs
    · exact Or.inl rfl
    · cases hxs
  · exact Or.inr ⟨s, hs, hxs⟩

theorem not_mem_append' {c : Char} {a b : Lc} (ha : c ∉ a) (hb : c ∉ b) :
    c ∉ a ++ b :=
  fun hm => (List.mem_append.mp hm).elim ha hb

theorem not_mem_cons' {c x : Char} {l : Lc} (hx : ¬ (c = x)) (hl : c ∉ l) :
    c ∉ x :: l :=
  fun hm => (List.mem_cons.mp hm).elim hx hl

/-- Re-splitting `https://api.uploadcare.com` followed by a suffix that
begins with `/`: the scheme and netloc come back, and path, query and
fragment come from the suffix. -/
theorem urlsplitD_https_host (rest : Lc) (hslash : startsSlash rest = true) :
    urlsplitD ("https".data ++ ':' :: '/' :: '/'
        :: ("api.uploadcare.com".data ++ rest)) []
      = ⟨"https".data, "api.uploadcare.com".data,
         (splitQuery (splitFragment rest).1).1,
         (splitQuery (splitFragment rest).1).2,
         (splitFragment rest).2⟩ := by
  rw [urlsplitD_eq, splitScheme_https]
  dsimp only
  rw [show splitNetlocStage ('/' :: '/' :: ("api.uploadcare.com".data ++ rest))
      = splitnetloc ("api.uploadcare.com".data ++ rest) from rfl]
  rw [splitnetloc_append _ _ (by decide) (fun c r hcr => by
    have := (startsSlash_head? rest).mp hslash
    rw [hcr] at this
    simp only [List.head?_cons, Option.some.injEq] at this
    rw [this]
    decide)]

/-- Re-splitting what `urlunparse` builds over the default REST host from
a nonempty path component, parameters, query and fragment that avoid the
split delimiters: the path comes back with a leading slash and the query
comes back exactly. -/
theorem urlunparse_resplit (P prm q f : Lc) (hPne : P ≠ [])
    (hPq : '?' ∉ P) (hPh : '#' ∉ P) (hprq : '?' ∉ prm) (hprh : '#' ∉ prm)
    (hqh : '#' ∉ q) :
    ∃ u fr, urlsplitD (urlunparse
        ⟨"https".data, "api.uploadcare.com".data, P, prm, q, f⟩) []
        = ⟨"https".data, "api.uploadcare.com".data, u, q, fr⟩
      ∧ startsSlash u = true := by
  obtain ⟨url0, hu0, hu0ne, hu0q, hu0h⟩ :
      ∃ url0, (if prm ≠ [] then P ++ ';' :: prm else P) = url0 ∧ url0 ≠ []
        ∧ '?' ∉ url0 ∧ '#' ∉ url0 := by
    by_cases hprm : prm = []
    · exact ⟨P, by simp [hprm], hPne, hPq, hPh⟩
    · exact ⟨P ++ ';' :: prm, by simp [hprm], by simp,
        not_mem_append' hPq (not_mem_cons' (by decide) hprq),
        not_mem_append' hPh (not_mem_cons' (by decide) hprh)⟩
  have hup : urlunparse ⟨"https".data, "api.uploadcare.com".data, P, prm, q, f⟩
      = urlunsplit ⟨"https".data, "api.uploadcare.com".data, url0, q, f⟩ := by
    unfold urlunparse
    rw [hu0]
  obtain ⟨u, huval, huslash, huq, huh⟩ :
      ∃ u, (if url0 ≠ [] ∧ url0.take 1 ≠ "/".data then '/' :: url0 else url0) = u
        ∧ startsSlash u = true ∧ '?' ∉ u ∧ '#' ∉ u := by
    by_cases hsl : url0.take 1 = "/".data
    · exact ⟨url0, by simp [hsl], by simp [startsSlash, hsl], hu0q, hu0h⟩
    · exact ⟨'/' :: url0, by simp [hsl, hu0ne], by simp [startsSlash, List.take],
        not_mem_cons' (by decide) hu0q, not_mem_cons' (by decide) hu0h⟩
  have hus : urlunsplit ⟨"https".data, "api.uploadcare.com".data, url0, q, f⟩
      = "https".data ++ ':' :: '/' :: '/' :: ("api.uploadcare.com".data
          ++ ((u ++ (if q = [] then [] else '?' :: q))
              ++ (if f = [] then [] else '#' :: f))) := by
    unfold urlunsplit
    dsimp only
    rw [if_pos (Or.inl (by decide))]
    rw [huval]
    by_cases hq : q = [] <;> by_cases hf : f = [] <;>
      simp [hq, hf, List.append_assoc]
  rw [hup, hus]
  by_cases hq : q = [] <;> by_cases hf : f = []
  · subst hq; subst hf
    rw [if_pos rfl, if_pos rfl,
      show ((u ++ ([] : Lc)) ++ ([] : Lc)) = u by simp]
    rw [urlsplitD_https_host u huslash]
    rw [splitFragment_of_not_mem u huh]
    dsimp only
    rw [splitQuery_of_not_mem u huq]
    exact ⟨u, [], rfl, huslash⟩
  · subst hq
    rw [if_neg hf, if_pos rfl]
    rw [show ((u ++ ([] : Lc)) ++ '#' :: f) = u ++ '#' :: f by simp]
    rw [urlsplitD_https_host _ (by
      cases u with
      | nil => simp [startsSlash] at huslash
      | cons x xs =>
        simp [startsSlash, List.take] at huslash ⊢
        exact huslash)]
    rw [splitFragment_append u f huh]
    dsimp only
    rw [splitQuery_of_not_mem u huq]
    exact ⟨u, f, rfl, huslash⟩
  · subst hf
    rw [if_neg hq, if_pos rfl]
    rw [show ((u ++ '?' :: q) ++ ([] : Lc)) = u ++ '?' :: q by simp]
    rw [urlsplitD_https_host _ (by
      cases u with
      | nil => simp [startsSlash] at huslash
      | cons x xs =>
        simp [startsSlash, List.take] at huslash ⊢
        exact huslash)]
    rw [splitFragment_of_not_mem _
      (not_mem_append' huh (not_mem_cons' (by decide) hqh))]
    dsimp only
    rw [splitQuery_append u q huq]
    exact ⟨u, [], rfl, huslash⟩
  · rw [if_neg hq, if_neg hf]
    rw [urlsplitD_https_host _ (by
      cases u with
      | nil => simp [startsSlash] at huslash
      | cons x xs =>
        simp [startsSlash, List.take] at huslash ⊢
        exact huslash)]
    rw [splitFragment_append _ f
      (not_mem_append' huh (not_mem_cons' (by decide) hqh))]
    dsimp only
    rw [splitQuery_append u q huq]
    exact ⟨u, f, rfl, huslash⟩

/-- Characters of the resolved, re-joined path: the separator or
characters of the reference's path component. -/
theorem resolved_chars (pth : Lc) (resolved : List Lc)
    (hres : ∀ s ∈ resolved, s ∈ [[], []] ++ splitChar '/' pth ∨ s = []) :
    ∀ x ∈ List.intercalate ['/'] resolved, x = '/' ∨ x ∈ pth := by
  intro x hx
  rcases intercalate_chars resolved x hx with rfl | ⟨s, hs, hxs⟩
  · exact Or.inl rfl
  · rcases hres s hs with hm | rfl
    · rcases List.mem_append.mp hm with hm | hm
      · rcases List.mem_cons.mp hm with rfl | hm
        · cases hxs
        · rcases List.mem_cons.mp hm with rfl | hm
          · cases hxs
          · cases hm
      · exact Or.inr (splitChar_chars '/' pth s hm x hxs)
    · cases hxs

/-- `startsSlash` is stable under appending. -/
theorem startsSlash_append (u r : Lc) (h : startsSlash u = true) :
    startsSlash (u ++ r) = true := by
  cases u with
  | nil => simp [startsSlash] at h
  | cons x xs =>
    simp [startsSlash, List.take] at h ⊢
    exact h

/-- `urljoin` of a relative reference against the default REST base is an
`urlunparse` over the base's scheme and host, with a nonempty path
component free of `?`, `#` — and params and query free of the characters
the later re-split would catch. -/
theorem urljoin_default_base (p : Lc) (hsch : hasSchemePrefix p = false)
    (hs : startsSlash p = false) (hp0 : p ≠ []) :
    ∃ P PRM Q F, urljoin "https://api.uploadcare.com/".data p
        = urlunparse ⟨"https".data, "api.uploadcare.com".data, P, PRM, Q, F⟩
      ∧ P ≠ [] ∧ '?' ∉ P ∧ '#' ∉ P ∧ '?' ∉ PRM ∧ '#' ∉ PRM ∧ '#' ∉ Q := by
  obtain ⟨pth, prm, q, f, hparse, hpth_h, hpth_q, hprm_h, hprm_q, hq_h, hpth_sl⟩ :=
    urlparseD_relative p hsch hs
  unfold urljoin
  rw [if_neg (show ¬ ("https://api.uploadcare.com/".data = ([] : Lc)) by decide)]
  rw [if_neg hp0]
  rw [show urlparseD "https://api.uploadcare.com/".data []
      = ⟨"https".data, "api.uploadcare.com".data, "/".data, [], [], []⟩ from by decide]
  dsimp only
  rw [hparse]
  dsimp only
  rw [if_neg (not_not_intro ⟨rfl, by decide⟩)]
  rw [if_neg (fun hcon => hcon.2 rfl)]
  rw [if_pos (show "https".data ∈ usesNetloc by decide)]
  by_cases hEmpty : pth = [] ∧ prm = []
  · rw [if_pos hEmpty]
    refine ⟨"/".data, [], if q = [] then [] else q, f, rfl, by decide, by decide,
      by decide, by simp, by simp, ?_⟩
    by_cases hq : q = []
    · simp [hq]
    · simpa [hq] using hq_h
  · rw [if_neg hEmpty]
    rw [show splitChar '/' ("/".data) = [[], []] from by decide]
    rw [if_neg (show ¬ (([[], []] : List Lc).getLastD [] ≠ []) by decide)]
    rw [if_neg (show ¬ (pth.take 1 = "/".data) from of_decide_eq_false hpth_sl)]
    set segs := filterMiddle ([[], []] ++ splitChar '/' pth) with hsegs
    set resolved0 := resolveSegs [] segs with hres0
    have hresmem : ∀ s ∈ resolved0, s ∈ [[], []] ++ splitChar '/' pth ∨ s = [] := by
      intro s hsmem
      rcases resolveSegs_mem segs [] s hsmem with h | h
      · cases h
      · exact Or.inl (filterMiddle_mem _ s h)
    by_cases hdot : segs.getLastD [] = ".".data ∨ segs.getLastD [] = "..".data
    · rw [if_pos hdot]
      have hresmem2 : ∀ s ∈ resolved0 ++ [[]],
          s ∈ [[], []] ++ splitChar '/' pth ∨ s = [] := by
        intro s hsmem
        rcases List.mem_append.mp hsmem with h | h
        · exact hresmem s h
        · rcases List.mem_cons.mp h with rfl | h
          · exact Or.inr rfl
          · cases h
      have hchars := resolved_chars pth (resolved0 ++ [[]]) hresmem2
      by_cases hjoined : List.intercalate ['/'] (resolved0 ++ [[]]) = []
      · rw [if_pos hjoined]
        exact ⟨"/".data, prm, q, f, rfl, by decide, by decide, by decide,
          hprm_q, hprm_h, hq_h⟩
      · rw [if_neg hjoined]
        refine ⟨_, prm, q, f, rfl, hjoined, ?_, ?_, hprm_q, hprm_h, hq_h⟩
        · intro hm
          rcases hchars _ hm with h | h
          · exact absurd h (by decide)
          · exact hpth_q h
        · intro hm
          rcases hchars _ hm with h | h
          · exact absurd h (by decide)
          · exact hpth_h h
    · rw [if_neg hdot]
      have hchars := resolved_chars pth resolved0 hresmem
      by_cases hjoined : List.intercalate ['/'] resolved0 = []
      · rw [if_pos hjoined]
        exact ⟨"/".data, prm, q, f, rfl, by decide, by decide, by decide,
          hprm_q, hprm_h, hq_h⟩
      · rw [if_neg hjoined]
        refine ⟨_, prm, q, f, rfl, hjoined, ?_, ?_, hprm_q, hprm_h, hq_h⟩
        · intro hm
          rcases hchars _ hm with h | h
          · exact absurd h (by decide)
          · exact hpth_q h
        · intro hm
          rcases hchars _ hm with h | h
          · exact absurd h (by decide)
          · exact hpth_h h

/-- For a relative reference, the signed path against the default REST
base begins with `/`. -/
theorem signedPath_startsSlash (p : Lc) (hsch : hasSchemePrefix p = false)
    (hs : startsSlash p = false) :
    startsSlash (signedPath "https://api.uploadcare.com/".data p) = true := by
  by_cases hp0 : p = []
  · subst hp0
    decide
  · unfold signedPath
    obtain ⟨P, PRM, Q, F, hjoin, hPne, hPq, hPh, hPRq, hPRh, hQh⟩ :=
      urljoin_default_base p hsch hs hp0
    rw [hjoin]
    obtain ⟨u, fr, hsplit, huslash⟩ :=
      urlunparse_resplit P PRM Q F hPne hPq hPh hPRq hPRh hQh
    rw [hsplit]
    dsimp only
    by_cases hQ : Q = []
    · subst hQ
      rw [if_neg (fun h => h rfl)]
      exact huslash
    · rw [if_pos hQ]
      exact startsSlash_append u ('?' :: Q) huslash

/-- **C9**: the path `rest_request` signs is read off the URL obtained by
resolving the input path against the configured REST base — it is the
resolved URL's path component, with `?` and the query string appended
exactly when a query string is present (first conjunct, every
configuration); and against the default base, every relative input path
(no scheme prefix, no leading slash) yields a signed path that begins
with `/` — so it carries no scheme-and-host prefix — and differs from the
input path string, which is therefore not what is signed. -/
theorem C9_signed_path_canonicalization :
    (∀ api_base path : Lc,
      signedPath api_base path
        = (if (urlsplitD (urljoin api_base path) []).query ≠ [] then
            (urlsplitD (urljoin api_base path) []).path
              ++ '?' :: (urlsplitD (urljoin api_base path) []).query
          else (urlsplitD (urljoin api_base path) []).path))
  ∧ (∀ p : Lc, hasSchemePrefix p = false → startsSlash p = false →
      startsSlash (signedPath "https://api.uploadcare.com/".data p) = true
      ∧ signedPath "https://api.uploadcare.com/".data p ≠ p) := by
  constructor
  · intro api_base path
    rfl
  · intro p hsch hs
    have h1 := signedPath_startsSlash p hsch hs
    refine ⟨h1, fun heq => ?_⟩
    rw [heq] at h1
    simp [h1] at hs

/-- Witness for C9 at the spec's own example path `files/?limit=10`: the
signed path is `/files/?limit=10`, not the input string. -/
theorem C9_signed_path_canonicalization_witness :
    hasSchemePrefix "files/?limit=10".data = false
  ∧ startsSlash "files/?limit=10".data = false
  ∧ startsSlash (signedPath "https://api.uploadcare.com/".data
      "files/?limit=10".data) = true
  ∧ signedPath "https://api.uploadcare.com/".data "files/?limit=10".data
      ≠ "files/?limit=10".data
  ∧ signedPath "https://api.uploadcare.com/".data "files/?limit=10".data
      = "/files/?limit=10".data :=
  ⟨rfl, rfl,
   (C9_signed_path_canonicalization.2 "files/?limit=10".data rfl rfl).1,
   (C9_signed_path_canonicalization.2 "files/?limit=10".data rfl rfl).2,
   by decide⟩

end Uploadcare
